import Mathlib

/-!
Shallow embedding of the widget-graph / input-event-router core of the
render_demo repository (demo/src/gui/widgets.rs and
demo/src/gui/user_interface/events.rs), together with theorems settling the
frozen claims about it.

Modelling conventions, used throughout:
* `Handle` is a natural number (the slab key / hecs entity id).
* The slab of widgets is an association list `List (Handle × Widget)`;
  `get_widget` panics in the source on a missing handle, the model returns
  `Option` and treats the impossible branch as a no-op.
* Callbacks are opaque application code.  The model records every callback
  invocation as an event appended to a `trace` field of the state, and keeps
  the two registration tables (internal and user) as association lists from
  (widget-kind, event-kind) keys to the registered entry's variant, mirroring
  `HashMap<CallBackKey, InternalCallBacks>` / `HashMap<CallBackKey, CallBacks<T>>`.
  A callback fires exactly when the source's table lookup and pattern match
  succeed.  Callback bodies themselves mutate nothing in the model.
* `winit` window calls (`outer_position` / `set_outer_position`) are external
  collaborators; the window-move branch is modelled as succeeding.
* Rust statements that do not compile verbatim are transcribed by their
  evident meaning and flagged with a comment at the definition
  (e.g. `actions.set(F) = b` is read as assigning flag F to b, and a
  variable that is out of scope at its use site is read as the enclosing
  binder of the same match).
-/

/-- A slab key; `Handle(Entity)` in widget.rs. -/
abbrev Handle := Nat

/-- The sixteen per-widget flags of the `bitfield!` in widget.rs. -/
inductive UiFlags where
  | IsFocused
  | CanFocus
  | MouseOver
  | MoveAble
  | Moving
  | CanClickBehind
  | AlwaysUseable
  | Minimized
  | Checked
  | FocusClick
  | IsPassword
  | CanMoveWindow
  | Clicked
  | ClickAble
  | AllowChildren
  | InnerScroll
deriving DecidableEq, Repr

/-- The sixteen bits of `UiField` (u16 bitset), one named Bool per flag. -/
structure UiField where
  isFocused : Bool := false
  canFocus : Bool := false
  mouseOver : Bool := false
  moveAble : Bool := false
  moving : Bool := false
  canClickBehind : Bool := false
  alwaysUseable : Bool := false
  minimized : Bool := false
  checked : Bool := false
  focusClick : Bool := false
  isPassword : Bool := false
  canMoveWindow : Bool := false
  clicked : Bool := false
  clickAble : Bool := false
  allowChildren : Bool := false
  innerScroll : Bool := false
deriving DecidableEq, Repr

/-- Reading one flag (`UiField::get`). -/
def UiField.get (a : UiField) : UiFlags → Bool
  | UiFlags.IsFocused => a.isFocused
  | UiFlags.CanFocus => a.canFocus
  | UiFlags.MouseOver => a.mouseOver
  | UiFlags.MoveAble => a.moveAble
  | UiFlags.Moving => a.moving
  | UiFlags.CanClickBehind => a.canClickBehind
  | UiFlags.AlwaysUseable => a.alwaysUseable
  | UiFlags.Minimized => a.minimized
  | UiFlags.Checked => a.checked
  | UiFlags.FocusClick => a.focusClick
  | UiFlags.IsPassword => a.isPassword
  | UiFlags.CanMoveWindow => a.canMoveWindow
  | UiFlags.Clicked => a.clicked
  | UiFlags.ClickAble => a.clickAble
  | UiFlags.AllowChildren => a.allowChildren
  | UiFlags.InnerScroll => a.innerScroll

/-- Writing one flag; the source's `actions.set(F) = b` statements are read as
assigning flag F the value b (the `Actions` API of widget.rs has `set`/`clear`). -/
def UiField.put (a : UiField) : UiFlags → Bool → UiField
  | UiFlags.IsFocused, b => { a with isFocused := b }
  | UiFlags.CanFocus, b => { a with canFocus := b }
  | UiFlags.MouseOver, b => { a with mouseOver := b }
  | UiFlags.MoveAble, b => { a with moveAble := b }
  | UiFlags.Moving, b => { a with moving := b }
  | UiFlags.CanClickBehind, b => { a with canClickBehind := b }
  | UiFlags.AlwaysUseable, b => { a with alwaysUseable := b }
  | UiFlags.Minimized, b => { a with minimized := b }
  | UiFlags.Checked, b => { a with checked := b }
  | UiFlags.FocusClick, b => { a with focusClick := b }
  | UiFlags.IsPassword, b => { a with isPassword := b }
  | UiFlags.CanMoveWindow, b => { a with canMoveWindow := b }
  | UiFlags.Clicked, b => { a with clicked := b }
  | UiFlags.ClickAble, b => { a with clickAble := b }
  | UiFlags.AllowChildren, b => { a with allowChildren := b }
  | UiFlags.InnerScroll, b => { a with innerScroll := b }

/-- An integer rectangle (x, y, width, height), the i32 bounds tuple returned
by `ui.get_bounds()` in widgets.rs. -/
structure IRect where
  x : Int
  y : Int
  w : Int
  h : Int
deriving DecidableEq, Repr

/-- Modelled from the spec: the concrete widget payloads (the `ui` object with
its `check_mouse_bounds`) live in files that are not under src/; per the spec
a widget's hit test asks whether the point lies in its bounds rectangle. -/
def IRect.containsPt (r : IRect) (p : Int × Int) : Bool :=
  decide (r.x ≤ p.1) && decide (p.1 ≤ r.x + r.w) &&
  decide (r.y ≤ p.2) && decide (p.2 ≤ r.y + r.h)

/-- The event kinds of the `CallBack` enum. Modelled from the spec: the enum
itself is declared in gui/callbacks.rs which is not under src/; widgets.rs
uses exactly the variants `MousePress`, `FocusChange` and `PositionChange`. -/
inductive CallBack where
  | MousePress
  | FocusChange
  | PositionChange
deriving DecidableEq, Repr

/-- Variant markers for registered `InternalCallBacks` entries (the callback
bodies are opaque application code; only the variant is observable to the
router's pattern matches). -/
inductive InternalCB where
  | MousePress
  | FocusChange
  | PositionChange
deriving DecidableEq, Repr

/-- Variant markers for registered user `CallBacks<T>` entries. -/
inductive UserCB where
  | MousePress
deriving DecidableEq, Repr

/-- The event-kind a registered internal entry's variant belongs to. -/
def InternalCB.kind : InternalCB → CallBack
  | InternalCB.MousePress => CallBack.MousePress
  | InternalCB.FocusChange => CallBack.FocusChange
  | InternalCB.PositionChange => CallBack.PositionChange

/-- One recorded callback invocation.  `i` prefix = internal tier,
`u` prefix = user tier. -/
inductive TEvent where
  | iMousePress (h : Handle) (pressed : Bool) (button : Nat)
  | uMousePress (h : Handle) (pressed : Bool) (button : Nat)
  | iFocusChange (h : Handle) (focused : Bool)
  | iPositionChange (h : Handle)
deriving DecidableEq, Repr

/-- A widget node.  Modelled from the spec: the `Widget` struct used by
widgets.rs is declared in a gui file that is not under src/; its fields are
those widgets.rs reads (`id`, `parent`, `children`, `actions`, the `ui`
payload's bounds) plus the widget-kind `ty` used to build callback keys
(the spec keys callbacks by (type-of-widget, event-kind)). -/
structure Widget where
  id : Handle
  ty : Nat
  parent : Option Handle
  children : List Handle
  actions : UiField
  bounds : IRect
deriving DecidableEq, Repr

/-- Association-list lookup keyed on the first component. -/
def alookup {α : Type} [DecidableEq α] {β : Type} (l : List (α × β)) (k : α) : Option β :=
  match l.find? (fun p => p.1 = k) with
  | some p => some p.2
  | none => none

/-- Pointwise update of the value stored under a key. -/
def aupdate {α : Type} [DecidableEq α] {β : Type} (l : List (α × β)) (k : α) (g : β → β) :
    List (α × β) :=
  l.map (fun p => if p.1 = k then (p.1, g p.2) else p)

/-- The `Widgets<T>` router state of widgets.rs.  The two callback hash maps
keep only each registered entry's variant; `trace` records dispatched
callbacks in order. -/
structure WState where
  widgets : List (Handle × Widget)
  zlist : List Handle
  focused : Option Handle
  over : Option Handle
  clicked : Option Handle
  mouseClicked : Int × Int
  mousePos : Int × Int
  newMousePos : Int × Int
  moving : Bool
  button : Nat
  modifier : Nat
  icbs : List ((Nat × CallBack) × InternalCB)
  ucbs : List ((Nat × CallBack) × UserCB)
  trace : List TEvent
deriving DecidableEq, Repr

/-- `Widgets::get_widget` (panics on a stale handle in the source). -/
def WState.getW (s : WState) (h : Handle) : Option Widget :=
  alookup s.widgets h

/-- Updating the widget stored under a handle. -/
def WState.updW (s : WState) (h : Handle) (g : Widget → Widget) : WState :=
  { s with widgets := aupdate s.widgets h g }

/-- Internal-callback table lookup (`self.callbacks.get(&key)`). -/
def WState.lookICB (s : WState) (k : Nat × CallBack) : Option InternalCB :=
  alookup s.icbs k

/-- User-callback table lookup (`self.user_callbacks.get(&key)`). -/
def WState.lookUCB (s : WState) (k : Nat × CallBack) : Option UserCB :=
  alookup s.ucbs k

/-- Appending one dispatched callback to the trace. -/
def WState.emit (s : WState) (e : TEvent) : WState :=
  { s with trace := s.trace ++ [e] }

/-- widgets.rs lines 164-176, `Widgets::widget_focused_callback`.
Transcription notes, kept literal to the source:
* line 166 builds the lookup key with `CallBack::MousePress` (not
  `FocusChange`), so the match on an `InternalCallBacks::FocusChange` entry
  is against the MousePress key;
* line 168 sets the IsFocused flag to true unconditionally, for the
  unfocus call (`focused = false`) as well;
* line 169 assigns `self.focused = Some(handle)` where the only handle in
  scope is the control's own id. -/
def widget_focused_callback (s : WState) (h : Handle) (focused : Bool) : WState :=
  match s.getW h with
  | none => s
  | some w =>
    let key := (w.ty, CallBack.MousePress)
    let s1 := s.updW h (fun w0 => { w0 with actions := w0.actions.put UiFlags.IsFocused true })
    let s2 := { s1 with focused := some w.id }
    match s2.lookICB key with
    | some InternalCB.FocusChange => s2.emit (TEvent.iFocusChange h focused)
    | _ => s2

/-- widgets.rs lines 178-206, `Widgets::widget_mouse_press_callbacks`:
internal tier first, then user tier, both under the MousePress key. -/
def widget_mouse_press_callbacks (s : WState) (h : Handle) (pressed : Bool) : WState :=
  match s.getW h with
  | none => s
  | some w =>
    let key := (w.ty, CallBack.MousePress)
    let s1 :=
      match s.lookICB key with
      | some InternalCB.MousePress => s.emit (TEvent.iMousePress h pressed s.button)
      | _ => s
    match s1.lookUCB key with
    | some UserCB.MousePress => s1.emit (TEvent.uMousePress h pressed s1.button)
    | _ => s1

/-- widgets.rs lines 208-240, `Widgets::widget_set_clicked`. -/
def widget_set_clicked (s : WState) (h : Handle) : WState :=
  match s.getW h with
  | none => s
  | some w =>
    let inBounds := w.bounds.containsPt s.mouseClicked
    let s1 :=
      if w.actions.get UiFlags.CanMoveWindow && inBounds then { s with moving := true } else s
    if w.actions.get UiFlags.CanClickBehind then
      match w.parent with
      | some ph =>
        match s1.getW ph with
        | none => s1
        | some p =>
          let s2 :=
            if p.actions.get UiFlags.CanMoveWindow && p.bounds.containsPt s1.mouseClicked then
              { s1 with moving := true }
            else s1
          let s3 := { s2 with clicked := some ph }
          widget_mouse_press_callbacks s3 ph true
      | none => s1
    else
      let s2 :=
        if w.actions.get UiFlags.MoveAble && inBounds then
          s1.updW h (fun w0 => { w0 with actions := w0.actions.put UiFlags.Moving true })
        else s1
      widget_mouse_press_callbacks s2 h true

/-- The zlist raise shared by widget_set_focus and widget_manual_focus:
remove the first occurrence of the handle and push it to the back. -/
def raise_to_top_z (s : WState) (hid : Handle) : WState :=
  if hid ∈ s.zlist then { s with zlist := s.zlist.erase hid ++ [hid] } else s

/-- The parent-children raise shared by widget_set_focus and
widget_manual_focus: move the handle to the back of the parent's child list. -/
def raise_in_parent (s : WState) (w : Widget) (hid : Handle) : WState :=
  match w.parent with
  | some ph =>
    match s.getW ph with
    | none => s
    | some p =>
      if hid ∈ p.children then
        s.updW ph (fun p0 => { p0 with children := p0.children.erase hid ++ [hid] })
      else s
  | none => s

/-- widgets.rs lines 242-269, `Widgets::widget_set_focus`.
Line 261 reads `self.get_widget(parent_handle)` where `parent_handle` is out
of scope; the enclosing binder on line 260 is `focused_handle`, so the
previously focused handle is used. -/
def widget_set_focus (s : WState) (h : Handle) : WState :=
  match s.getW h with
  | none => s
  | some w =>
    let hid := w.id
    let s1 := raise_to_top_z s hid
    let s2 := raise_in_parent s1 w hid
    let s3 :=
      match s2.focused with
      | some fh => widget_focused_callback s2 fh false
      | none => s2
    let s4 := widget_focused_callback s3 h true
    widget_set_clicked s4 h

/-- widgets.rs lines 117-146, `Widgets::widget_manual_focus` (line 138 has the
same out-of-scope `parent_handle` read as line 261, read as `focused_handle`). -/
def widget_manual_focus (s : WState) (h : Handle) : WState :=
  match s.getW h with
  | none => s
  | some w =>
    if w.actions.get UiFlags.CanFocus then
      let hid := w.id
      let s1 := raise_to_top_z s hid
      let s2 := raise_in_parent s1 w hid
      let s3 :=
        match s2.focused with
        | some fh => widget_focused_callback s2 fh false
        | none => s2
      let s4 := s3.updW h (fun w0 => { w0 with actions := w0.actions.put UiFlags.IsFocused true })
      let s5 := { s4 with focused := some hid }
      widget_focused_callback s5 h true
    else s

/-- The ancestor walk of widgets.rs lines 280-306 (the `while let` loop of
`is_parent_focused`), fuelled so the model is total on cyclic stores.
Transcription notes:
* lines 285-286 test `UiFlags::CanFocus` twice, so the inner else branch
  (the FocusClick redirection) is unreachable; it is transcribed verbatim;
* line 299 writes `control.borrow().parent = Some(parent_handle)` inside a
  condition, read as the equality test. -/
def ipf_walk (s : WState) (w : Widget) : Option Handle → Nat → Bool × WState
  | _, 0 => (false, s)
  | none, _ => (false, s)
  | some ph, Nat.succ fuel =>
    match s.getW ph with
    | none => (false, s)
    | some p =>
      if p.actions.get UiFlags.CanFocus then
        if p.actions.get UiFlags.CanFocus then (true, s)
        else
          if p.actions.get UiFlags.FocusClick then (true, widget_set_clicked s ph)
          else (true, s)
      else
        if p.actions.get UiFlags.AlwaysUseable && p.actions.get UiFlags.ClickAble &&
            decide (w.parent = some ph) && w.actions.get UiFlags.CanClickBehind then
          (true, s)
        else ipf_walk s w p.parent fuel

/-- widgets.rs lines 271-309, `Widgets::is_parent_focused`. -/
def is_parent_focused (s : WState) (h : Handle) (fuel : Nat) : Bool × WState :=
  match s.getW h with
  | none => (false, s)
  | some w =>
    if w.actions.get UiFlags.AlwaysUseable then (true, s)
    else ipf_walk s w w.parent fuel

/-- widgets.rs lines 311-321, `Widgets::mouse_press_event`. -/
def mouse_press_event (s : WState) (h : Handle) (fuel : Nat) : WState :=
  match s.getW h with
  | none => s
  | some w =>
    if w.actions.get UiFlags.CanFocus then
      if s.focused ≠ some w.id then widget_set_focus s h else widget_set_clicked s h
    else
      let r := is_parent_focused s h fuel
      if r.1 then widget_set_clicked r.2 h else r.2

/-- The back-to-front scan of widgets.rs lines 324-343 (the loop body of
`mouse_press`), taking the z-order already reversed (topmost first).
A widget that matches MoveAble and the bounds but is not the ClickAble target
has its Moving flag set to false and the scan continues. -/
def mp_scan (fuel : Nat) : List Handle → WState → WState
  | [], st => st
  | h :: rest, st =>
    match st.getW h with
    | none => mp_scan fuel rest st
    | some c =>
      if c.actions.get UiFlags.ClickAble && c.bounds.containsPt st.mouseClicked then
        let st1 :=
          if c.actions.get UiFlags.MoveAble then
            st.updW h (fun w0 => { w0 with actions := w0.actions.put UiFlags.Moving false })
          else st
        mouse_press_event st1 h fuel
      else
        let st1 :=
          if c.actions.get UiFlags.MoveAble && c.bounds.containsPt st.mouseClicked then
            st.updW h (fun w0 => { w0 with actions := w0.actions.put UiFlags.Moving false })
          else st
        mp_scan fuel rest st1

/-- widgets.rs lines 323-344, `Widgets::mouse_press`. -/
def mouse_press (s : WState) (fuel : Nat) : WState :=
  mp_scan fuel s.zlist.reverse s

/-- The back-to-front scan of widgets.rs lines 355-368 (the loop body of
`mouse_release`). -/
def mr_scan : List Handle → WState → WState
  | [], st => st
  | h :: rest, st =>
    match st.getW h with
    | none => mr_scan rest st
    | some c =>
      if c.actions.get UiFlags.ClickAble && c.bounds.containsPt st.mouseClicked then
        let st1 :=
          if c.actions.get UiFlags.CanMoveWindow then { st with moving := false } else st
        widget_mouse_press_callbacks st1 h false
      else mr_scan rest st

/-- widgets.rs lines 346-369, `Widgets::mouse_release`. -/
def mouse_release (s : WState) : WState :=
  let s1 :=
    match s.focused with
    | some fh =>
      match s.getW fh with
      | some f =>
        if f.actions.get UiFlags.Moving then
          s.updW fh (fun w0 => { w0 with actions := w0.actions.put UiFlags.Moving false })
        else s
      | none => s
    | none => s
  mr_scan s1.zlist.reverse s1

/-- widgets.rs lines 148-162, `Widgets::event_mouse_button` (`pressed == 1`
is read as `pressed`, and `mouse_release(user_data)` as the method call). -/
def event_mouse_button (s : WState) (button : Nat) (pressed : Bool) (fuel : Nat) : WState :=
  let s1 := { s with button := button, mouseClicked := s.mousePos }
  if pressed then mouse_press s1 fuel else mouse_release s1

/-- widgets.rs lines 371-373, `Widgets::event_modifiers`. -/
def event_modifiers (s : WState) (m : Nat) : WState :=
  { s with modifier := m }

/-- widgets.rs lines 388-415, `Widgets::widget_position_update`, fuelled.
In the model an internal PositionChange callback only appends to the trace,
so the function is rendered as the list of dispatched events: fire the
widget's own PositionChange entry, then for each child either recurse (child
with children) or fire the child's entry directly (leaf child). -/
def widget_position_update (s : WState) : Nat → Handle → List TEvent
  | 0, _ => []
  | Nat.succ fuel, h =>
    match s.getW h with
    | none => []
    | some w =>
      let head :=
        match s.lookICB (w.ty, CallBack.PositionChange) with
        | some InternalCB.PositionChange => [TEvent.iPositionChange h]
        | _ => []
      head ++ w.children.flatMap (fun c =>
        match s.getW c with
        | none => []
        | some cw =>
          if !cw.children.isEmpty then widget_position_update s fuel c
          else
            match s.lookICB (cw.ty, CallBack.PositionChange) with
            | some InternalCB.PositionChange => [TEvent.iPositionChange c]
            | _ => [])

/-- widgets.rs lines 71-115, `Widgets::event_mouse_position`.  The window-drag
branch calls the window system (external collaborator, assumed to succeed);
the rejected widget-drag branch returns early, skipping the final
`self.mouse_pos = position` assignment. -/
def event_mouse_position (s : WState) (position screensize : Int × Int) (fuel : Nat) : WState :=
  let s1 := { s with newMousePos := position }
  if s1.moving then
    { s1 with mousePos := position }
  else
    match s1.focused with
    | some fh =>
      match s1.getW fh with
      | none => { s1 with mousePos := position }
      | some f =>
        if f.actions.get UiFlags.Moving then
          let pos := (position.1 - s1.mousePos.1, position.2 - s1.mousePos.2)
          let b := f.bounds
          if decide (b.x + pos.1 ≤ 0) || decide (b.y + pos.2 ≤ 0) ||
              decide (b.x + b.w + pos.1 ≥ screensize.1) ||
              decide (b.y + b.h + pos.2 ≥ screensize.2) then
            s1
          else
            let s2 := s1.updW fh
              (fun w0 => { w0 with bounds := { w0.bounds with x := b.x + pos.1, y := b.y + pos.2 } })
            let s3 := { s2 with trace := s2.trace ++ widget_position_update s2 fuel fh }
            { s3 with mousePos := position }
        else { s1 with mousePos := position }
    | none => { s1 with mousePos := position }

/-- A rational rectangle, the `Vec4` values (components x, y, z, w) flowing
through events.rs.  The f32 coordinates of the source are idealised as exact
rationals: every operation events.rs performs on them (addition, subtraction,
negation, order comparison) is transcribed verbatim. -/
structure QRect where
  x : Rat
  y : Rat
  z : Rat
  w : Rat
deriving DecidableEq, Repr

/-- One entity of the hecs world as events.rs reads it: its `Actions`
component, its optional `Parent` component, and the `WidgetAny` payload's
bounds (`get_bounds`) and position (`get_position` / `set_position`; the x,y
components of the Vec3).  The source's `set_position` updates the position
but not the bounds (the `todo ui.set_bounds()` comment at events.rs:117). -/
structure UIEntity where
  actions : UiField
  parent : Option Handle
  bounds : QRect
  pos : Rat × Rat
deriving DecidableEq, Repr

/-- Events recorded by the UI (events.rs) model. -/
inductive UITrace where
  | windowMoved (dx dy : Rat)
  | positionUpdate (h : Handle)
  | hoverRecompute
deriving DecidableEq, Repr

/-- The `UI<Message>` router state used by events.rs. -/
structure UIState where
  world : List (Handle × UIEntity)
  focused : Option Handle
  moving : Bool
  mouseClicked : Rat × Rat
  mousePos : Rat × Rat
  newMousePos : Rat × Rat
  trace : List UITrace
deriving DecidableEq, Repr

/-- Component lookup in the hecs world (panics on a missing entity in the
source). -/
def UIState.getE (s : UIState) (h : Handle) : Option UIEntity :=
  alookup s.world h

/-- Updating one entity of the world. -/
def UIState.updE (s : UIState) (h : Handle) (g : UIEntity → UIEntity) : UIState :=
  { s with world := aupdate s.world h g }

/-- Modelled from the spec: `UI::mouse_over_event` is defined in
gui/user_interface.rs, which is not under src/; per the spec it recomputes
the hover state by hit-testing and fires enter/exit notifications.  It is
abstracted as a single trace marker that leaves the router's position state
untouched. -/
def ui_mouse_over_event (s : UIState) : UIState :=
  { s with trace := s.trace ++ [UITrace.hoverRecompute] }

/-- Modelled from the spec: `UI::widget_position_update` is defined in
gui/user_interface.rs, which is not under src/; per the spec position
propagation runs starting at the moved widget.  Only the start of the
propagation is recorded. -/
def ui_widget_position_update (h : Handle) : List UITrace :=
  [UITrace.positionUpdate h]

/-- events.rs lines 76-88: the containing bounds of a widget drag — the
parent's `get_bounds` if a `Parent` component exists, else the viewport
rectangle `Vec4::new(0, 0, screensize.x, screensize.y)`.  (The source would
panic on a parent without a payload; the model falls back to the viewport.) -/
def containerOf (s : UIState) (f : UIEntity) (screensize : Rat × Rat) : QRect :=
  match f.parent with
  | some ph =>
    match s.getE ph with
    | some p => p.bounds
    | none => QRect.mk 0 0 screensize.1 screensize.2
  | none => QRect.mk 0 0 screensize.1 screensize.2

/-- events.rs lines 90-93: the applied delta — the x pointer delta, the y
pointer delta multiplied by -1. -/
def uiDelta (s : UIState) (position : Rat × Rat) : Rat × Rat :=
  (position.1 - s.mousePos.1, (position.2 - s.mousePos.2) * (-1))

/-- events.rs lines 104-110: the boundary-rejection test on the prospective
bounds, using non-strict comparisons against the containing bounds. -/
def uiRejects (f : UIEntity) (pb : QRect) (pos : Rat × Rat) : Bool :=
  decide (f.bounds.x + pos.1 ≤ pb.x) || decide (f.bounds.y + pos.2 ≤ pb.y) ||
  decide (f.bounds.x + f.bounds.z + pos.1 ≥ pb.z) ||
  decide (f.bounds.y + f.bounds.w + pos.2 ≥ pb.w)

/-- events.rs lines 46-128, `UI::event_mouse_position`.  The early `return` in
the rejected branch (line 109) skips both `mouse_over_event` and the final
`self.mouse_pos = position`.  The window-drag branch asks the window system to
move the window (external collaborator, recorded as a trace event). -/
def ui_event_mouse_position (s : UIState) (position screensize : Rat × Rat) : UIState :=
  let s1 := { s with newMousePos := position }
  if s1.moving then
    let dx := position.1 - s1.mouseClicked.1
    let dy := (position.2 - s1.mouseClicked.2) * (-1)
    let s2 := { s1 with trace := s1.trace ++ [UITrace.windowMoved dx dy] }
    { s2 with mousePos := position }
  else
    match s1.focused with
    | some fh =>
      match s1.getE fh with
      | none =>
        let s2 := ui_mouse_over_event s1
        { s2 with mousePos := position }
      | some f =>
        if f.actions.get UiFlags.Moving then
          let pb := containerOf s1 f screensize
          let pos := uiDelta s1 position
          if uiRejects f pb pos then
            s1
          else
            let s2 := s1.updE fh
              (fun e => { e with pos := (e.pos.1 + pos.1, e.pos.2 + pos.2) })
            let s3 := { s2 with trace := s2.trace ++ ui_widget_position_update fh }
            let s4 := ui_mouse_over_event s3
            { s4 with mousePos := position }
        else
          let s2 := ui_mouse_over_event s1
          { s2 with mousePos := position }
    | none =>
      let s2 := ui_mouse_over_event s1
      { s2 with mousePos := position }

/-- The hit test of mouse_press/mouse_release (widgets.rs lines 324-329 and
355-360): the first handle in the given scan order whose widget has ClickAble
set and whose bounds contain the click point. -/
def hitTestList (s : WState) : List Handle → Option Handle
  | [] => none
  | h :: rest =>
    match s.getW h with
    | none => hitTestList s rest
    | some c =>
      if c.actions.get UiFlags.ClickAble && c.bounds.containsPt s.mouseClicked then some h
      else hitTestList s rest

/-- The press/release hit test over the z-order, topmost first. -/
def hitTest (s : WState) : Option Handle :=
  hitTestList s s.zlist.reverse

/-- The child handles of a widget (empty for a stale handle). -/
def childrenOf (s : WState) (h : Handle) : List Handle :=
  match s.getW h with
  | some w => w.children
  | none => []

/-- Reachability along child lists: the moved widget and its reachable
descendants. -/
inductive Reaches (s : WState) : Handle → Handle → Prop where
  | refl (h : Handle) : Reaches s h h
  | step {h c d : Handle} : c ∈ childrenOf s h → Reaches s c d → Reaches s h d

/-- The fuelled subtree listing of a widget: itself, then the subtrees of its
children in order. -/
def subtreeL (s : WState) : Nat → Handle → List Handle
  | 0, _ => []
  | Nat.succ f, h => h :: (childrenOf s h).flatMap (subtreeL s f)

/-- The handles whose PositionChange entry `widget_position_update` would
fire, mirroring its recursion shape (including the direct leaf-child call). -/
def pcTargets (s : WState) : Nat → Handle → List Handle
  | 0, _ => []
  | Nat.succ f, h =>
    match s.getW h with
    | none => []
    | some w =>
      h :: w.children.flatMap (fun c =>
        match s.getW c with
        | none => []
        | some cw => if !cw.children.isEmpty then pcTargets s f c else [c])

/-- The ancestor chain as the fuelled walk of `is_parent_focused` visits it. -/
def chainL (s : WState) : Option Handle → Nat → List Handle
  | _, 0 => []
  | none, _ => []
  | some ph, Nat.succ fuel =>
    match s.getW ph with
    | none => []
    | some p => ph :: chainL s p.parent fuel

/-- Well-formed internal-callback table: every registered entry's variant
matches the event-kind of its key (a FocusChange entry is registered under a
FocusChange key, and so on). -/
@[reducible] def WfICBs (s : WState) : Prop :=
  ∀ p ∈ s.icbs, p.2.kind = p.1.2

/-- Handle coherence: each stored widget's `id` field is its slab key. -/
@[reducible] def IdCoherent (s : WState) : Prop :=
  ∀ p ∈ s.widgets, p.2.id = p.1

/-- Every stored widget's children are live handles. -/
@[reducible] def ChildLive (s : WState) : Prop :=
  ∀ p ∈ s.widgets, ∀ c ∈ p.2.children, (s.getW c).isSome = true

/-- Every stored widget's child list is duplicate-free. -/
@[reducible] def ChildNodup (s : WState) : Prop :=
  ∀ p ∈ s.widgets, p.2.children.Nodup

/-- No handle is listed as a child of two different widgets (forest shape). -/
@[reducible] def UniqueParent (s : WState) : Prop :=
  List.Pairwise (fun p q => ∀ c ∈ p.2.children, c ∉ q.2.children) s.widgets

/-- A rank decreasing along child edges: acyclicity of the child lists. -/
@[reducible] def RankDecChild (s : WState) (rank : Handle → Nat) : Prop :=
  ∀ p ∈ s.widgets, ∀ c ∈ p.2.children, rank c < rank p.1

/-- A rank increasing along parent pointers: acyclicity of the parent chain. -/
@[reducible] def RankDecParent (s : WState) (rank : Handle → Nat) : Prop :=
  ∀ p ∈ s.widgets, ∀ ph ∈ p.2.parent, rank p.1 < rank ph

/-- All live ranks below a bound. -/
@[reducible] def RankBound (s : WState) (rank : Handle → Nat) (bound : Nat) : Prop :=
  ∀ p ∈ s.widgets, rank p.1 < bound

/-- A PositionChange internal callback is registered for every stored
widget's kind. -/
@[reducible] def PosChangeRegistered (s : WState) : Prop :=
  ∀ p ∈ s.widgets, s.lookICB (p.2.ty, CallBack.PositionChange) = some InternalCB.PositionChange

/-- The branch condition under which `Widgets::event_mouse_position` takes
the boundary-rejected early return (widgets.rs lines 98-104). -/
def rejectsDrag (s : WState) (position screensize : Int × Int) : Bool :=
  !s.moving &&
  (match s.focused with
   | some fh =>
     match s.getW fh with
     | some f =>
       f.actions.get UiFlags.Moving &&
       (let pos := (position.1 - s.mousePos.1, position.2 - s.mousePos.2)
        let b := f.bounds
        decide (b.x + pos.1 ≤ 0) || decide (b.y + pos.2 ≤ 0) ||
        decide (b.x + b.w + pos.1 ≥ screensize.1) ||
        decide (b.y + b.h + pos.2 ≥ screensize.2))
     | none => false
   | none => false)

/-! Concrete states used by counterexamples and failing-input evaluations. -/

/-- Two overlapping ClickAble widgets: handle 0 (bottom, the parent) and
handle 1 (topmost, CanClickBehind + AlwaysUseable, child of 0); user
MousePress callbacks registered for both kinds; click point (15,15) inside
both. -/
def cs1 : WState :=
  { widgets :=
      [(0, { id := 0, ty := 0, parent := none, children := [1],
             actions := { clickAble := true }, bounds := IRect.mk 0 0 100 100 }),
       (1, { id := 1, ty := 1, parent := some 0, children := [],
             actions := { clickAble := true, canClickBehind := true, alwaysUseable := true },
             bounds := IRect.mk 10 10 20 20 })],
    zlist := [0, 1], focused := none, over := none, clicked := none,
    mouseClicked := (15, 15), mousePos := (15, 15), newMousePos := (15, 15),
    moving := false, button := 7, modifier := 0,
    icbs := [],
    ucbs := [((0, CallBack.MousePress), UserCB.MousePress),
             ((1, CallBack.MousePress), UserCB.MousePress)],
    trace := [] }

/-- C1, counterexample: at `cs1` the press point lies in both ClickAble
widgets and widget 1 is the latest in z-order, yet the dispatched MousePress
callback goes to widget 0 (the parent of the CanClickBehind target); the
topmost widget receives nothing.  This refutes the claim that only the
widget latest in z-order receives the MousePress dispatch. -/
theorem c1_counterexample :
    (mouse_press cs1 5).trace = [TEvent.uMousePress 0 true 7] := by decide

/-- Widget 0 (kind 0) is focused, widget 1 (kind 1) is a second focusable
button; FocusChange internal callbacks are registered under FocusChange keys
for both kinds (a well-formed table), MousePress entries under MousePress
keys; the pointer rests at (25,5), inside widget 1 only. -/
def cs2 : WState :=
  { widgets :=
      [(0, { id := 0, ty := 0, parent := none, children := [],
             actions := { isFocused := true, canFocus := true, clickAble := true },
             bounds := IRect.mk 0 0 10 10 }),
       (1, { id := 1, ty := 1, parent := none, children := [],
             actions := { canFocus := true, clickAble := true },
             bounds := IRect.mk 20 0 10 10 })],
    zlist := [0, 1], focused := some 0, over := none, clicked := none,
    mouseClicked := (0, 0), mousePos := (25, 5), newMousePos := (25, 5),
    moving := false, button := 0, modifier := 0,
    icbs := [((0, CallBack.FocusChange), InternalCB.FocusChange),
             ((1, CallBack.FocusChange), InternalCB.FocusChange),
             ((0, CallBack.MousePress), InternalCB.MousePress),
             ((1, CallBack.MousePress), InternalCB.MousePress)],
    ucbs := [((0, CallBack.MousePress), UserCB.MousePress),
             ((1, CallBack.MousePress), UserCB.MousePress)],
    trace := [] }

/-- C2, failing input: pressing widget 1 while widget 0 is focused moves the
router's focused field to widget 1, but fires no focus-changed callback at
all — neither the previously focused widget's with false nor the target's
with true — although both are registered: `widget_focused_callback` builds
its lookup key with `CallBack::MousePress` (widgets.rs line 166), so the
`InternalCallBacks::FocusChange` match never succeeds.  The dispatched
events are exactly the MousePress pair for the target. -/
theorem c2_focus_callbacks_never_fire :
    (event_mouse_button cs2 3 true 5).focused = some 1 ∧
    (event_mouse_button cs2 3 true 5).trace =
      [TEvent.iMousePress 1 true 3, TEvent.uMousePress 1 true 3] := by decide

/-- Two focusable, clickable, disjoint widgets, nothing focused, pointer at
(5,5) inside widget 0. -/
def cs3 : WState :=
  { widgets :=
      [(0, { id := 0, ty := 0, parent := none, children := [],
             actions := { canFocus := true, clickAble := true },
             bounds := IRect.mk 0 0 10 10 }),
       (1, { id := 1, ty := 1, parent := none, children := [],
             actions := { canFocus := true, clickAble := true },
             bounds := IRect.mk 20 0 10 10 })],
    zlist := [0, 1], focused := none, over := none, clicked := none,
    mouseClicked := (0, 0), mousePos := (5, 5), newMousePos := (5, 5),
    moving := false, button := 0, modifier := 0, icbs := [], ucbs := [],
    trace := [] }

/-- C3, failing input: press widget 0 (focusing it), move the pointer to
(25,5), press widget 1.  Afterwards BOTH widgets carry the IsFocused flag
while the router's focused field names widget 1: `widget_focused_callback`
sets IsFocused to true even for the unfocus call (widgets.rs line 168) and
no code path ever clears it, so focus exclusivity fails. -/
theorem c3_two_widgets_focused :
    ((event_mouse_button (event_mouse_position (event_mouse_button cs3 0 true 5)
        (25, 5) (800, 600) 5) 0 true 5).getW 0).map (fun w => w.actions.isFocused) =
      some true ∧
    ((event_mouse_button (event_mouse_position (event_mouse_button cs3 0 true 5)
        (25, 5) (800, 600) 5) 0 true 5).getW 1).map (fun w => w.actions.isFocused) =
      some true ∧
    (event_mouse_button (event_mouse_position (event_mouse_button cs3 0 true 5)
        (25, 5) (800, 600) 5) 0 true 5).focused = some 1 := by decide

/-- UI (events.rs) state: entity 1 (bounds (10,10,20,20), position (10,10),
Moving set, focused) inside parent entity 0 (bounds (0,0,100,100)); pointer
at (50,50); no window drag. -/
def cs4 : UIState :=
  { world :=
      [(0, { actions := {}, parent := none,
             bounds := QRect.mk 0 0 100 100, pos := (0, 0) }),
       (1, { actions := { moving := true }, parent := some 0,
             bounds := QRect.mk 10 10 20 20, pos := (10, 10) })],
    focused := some 1, moving := false,
    mouseClicked := (0, 0), mousePos := (50, 50), newMousePos := (50, 50),
    trace := [] }

/-- C4, counterexample: (a) a pointer delta of (-10,0) puts the prospective
left edge exactly ON the parent's left edge — not outside it — yet the move
is rejected (the test at events.rs lines 104-107 is non-strict), leaving the
position at (10,10) where the claim requires (0,10); (b) a pointer delta of
(0,5) is accepted but moves the widget to (10,5), not (10,15): the y
component of the applied delta is negated (events.rs line 92). -/
theorem c4_counterexample :
    (((ui_event_mouse_position cs4 (40, 50) (800, 600)).getE 1).map UIEntity.pos =
      some ((10 : Rat), (10 : Rat))) ∧
    (((ui_event_mouse_position cs4 (50, 55) (800, 600)).getE 1).map UIEntity.pos =
      some ((10 : Rat), (5 : Rat))) := by
  constructor <;>
    norm_num [ui_event_mouse_position, uiRejects, uiDelta, containerOf,
      ui_mouse_over_event, ui_widget_position_update, UIState.getE, UIState.updE,
      alookup, aupdate, cs4, UiField.get, List.find?]

/-- A CanClickBehind, ClickAble widget 1 whose parent 0 grants no permission
(neither can focus, neither is AlwaysUseable); a user MousePress callback is
registered for the parent's kind; click point (15,15) inside widget 1. -/
def cs5 : WState :=
  { widgets :=
      [(0, { id := 0, ty := 0, parent := none, children := [1],
             actions := { clickAble := true, canMoveWindow := true },
             bounds := IRect.mk 0 0 100 100 }),
       (1, { id := 1, ty := 1, parent := some 0, children := [],
             actions := { clickAble := true, canClickBehind := true },
             bounds := IRect.mk 10 10 20 20 })],
    zlist := [0, 1], focused := none, over := none, clicked := none,
    mouseClicked := (15, 15), mousePos := (15, 15), newMousePos := (15, 15),
    moving := false, button := 0, modifier := 0,
    icbs := [],
    ucbs := [((0, CallBack.MousePress), UserCB.MousePress),
             ((1, CallBack.MousePress), UserCB.MousePress)],
    trace := [] }

/-- C5, counterexample: at `cs5` the hit-test target has CanClickBehind and a
parent with CanMoveWindow containing the click point, but the press changes
nothing at all — in particular the parent's registered MousePress callback is
not invoked and no window drag begins — because the target can not focus and
no ancestor grants permission, so `widget_set_clicked` is never reached. -/
theorem c5_counterexample : mouse_press cs5 5 = cs5 := by decide

/-- A three-level chain: target 2 (ClickAble, cannot focus) with parent 1
(no permissions) with parent 0 (AlwaysUseable and ClickAble, away from the
click point); a user MousePress callback registered for the target's kind;
click point (5,5) inside the target only. -/
def cs7 : WState :=
  { widgets :=
      [(0, { id := 0, ty := 0, parent := none, children := [1],
             actions := { alwaysUseable := true, clickAble := true },
             bounds := IRect.mk 50 50 10 10 }),
       (1, { id := 1, ty := 1, parent := some 0, children := [2],
             actions := {}, bounds := IRect.mk 50 50 10 10 }),
       (2, { id := 2, ty := 2, parent := some 1, children := [],
             actions := { clickAble := true }, bounds := IRect.mk 0 0 10 10 })],
    zlist := [0, 1, 2], focused := none, over := none, clicked := none,
    mouseClicked := (5, 5), mousePos := (5, 5), newMousePos := (5, 5),
    moving := false, button := 0, modifier := 0,
    icbs := [],
    ucbs := [((2, CallBack.MousePress), UserCB.MousePress)],
    trace := [] }

/-- C7, counterexample: at `cs7` an ancestor (the grandparent, handle 0) has
AlwaysUseable, so the claim grants permission immediately and requires
set_clicked to run on the target — dispatching its registered MousePress
callback.  The code leaves the state completely unchanged: the walk only
grants for AlwaysUseable on the target itself or, under extra conditions, on
the direct parent, never on a more distant ancestor. -/
theorem c7_counterexample : mouse_press cs7 5 = cs7 := by decide

/-- A focused widget mid-drag (Moving set) with bounds (10,10,20,20); the
pointer sits at (50,50) and no window drag is active. -/
def cs8 : WState :=
  { widgets :=
      [(0, { id := 0, ty := 0, parent := none, children := [],
             actions := { moveAble := true, moving := true },
             bounds := IRect.mk 10 10 20 20 })],
    zlist := [0], focused := some 0, over := none, clicked := none,
    mouseClicked := (0, 0), mousePos := (50, 50), newMousePos := (50, 50),
    moving := false, button := 0, modifier := 0, icbs := [], ucbs := [],
    trace := [] }

/-- C8, counterexample: a pointer move to (30,50) computes delta (-20,0),
which the boundary test rejects; the early return skips the final
`self.mouse_pos = position` assignment, so the last-pointer-position field
still holds (50,50), not the event point. -/
theorem c8_counterexample :
    (event_mouse_position cs8 (30, 50) (100, 100) 5).mousePos ≠ ((30 : Int), (50 : Int)) := by
  decide

/-- A single MoveAble, non-ClickAble widget with its Moving flag set,
containing the click point (5,5). -/
def cs9 : WState :=
  { widgets :=
      [(0, { id := 0, ty := 0, parent := none, children := [],
             actions := { moveAble := true, moving := true },
             bounds := IRect.mk 0 0 10 10 })],
    zlist := [0], focused := none, over := none, clicked := none,
    mouseClicked := (5, 5), mousePos := (5, 5), newMousePos := (5, 5),
    moving := false, button := 0, modifier := 0, icbs := [], ucbs := [],
    trace := [] }

/-- C9, counterexample: the press at (5,5) finds no ClickAble widget, yet the
widget store changes — the scan clears the Moving flag of the MoveAble widget
containing the point (widgets.rs lines 338-342) — refuting the claim that
such a press causes no state change. -/
theorem c9_counterexample :
    ((mouse_press cs9 5).getW 0).map (fun w => w.actions.moving) = some false ∧
    (cs9.getW 0).map (fun w => w.actions.moving) = some true := by decide

/-- C8 (amended): after a pointer-move event the new-pointer-position field
always equals the event point, and the last-pointer-position field
(`mouse_pos`) equals the event point in every branch EXCEPT the
boundary-rejected widget drag, whose early return leaves it at its previous
value. -/
theorem c8_last_pointer_position (s : WState) (position screensize : Int × Int) (fuel : Nat) :
    (event_mouse_position s position screensize fuel).newMousePos = position ∧
    (event_mouse_position s position screensize fuel).mousePos =
      (if rejectsDrag s position screensize then s.mousePos else position) := by
  refine ⟨?_, ?_⟩ <;>
    · simp only [event_mouse_position, rejectsDrag, WState.getW]
      repeat' split
      all_goals simp_all [WState.updW]

theorem alookup_mem {α β : Type} [DecidableEq α] {l : List (α × β)} {k : α} {v : β}
    (h : alookup l k = some v) : (k, v) ∈ l := by
  unfold alookup at h
  cases hf : List.find? (fun p => p.1 = k) l with
  | none => rw [hf] at h; exact absurd h (by simp)
  | some p =>
    rw [hf] at h
    have hk : p.1 = k := by
      have := List.find?_some hf
      simpa using this
    have hm : p ∈ l := List.mem_of_find?_eq_some hf
    have hv : p.2 = v := by simpa using h
    have : p = (k, v) := by
      cases p; simp_all
    rwa [this] at hm

theorem alookup_cons {α β : Type} [DecidableEq α] (p : α × β) (l : List (α × β)) (k : α) :
    alookup (p :: l) k = if p.1 = k then some p.2 else alookup l k := by
  unfold alookup
  by_cases h : p.1 = k <;> simp [List.find?_cons, h]

theorem aupdate_cons {α β : Type} [DecidableEq α] (p : α × β) (l : List (α × β)) (k : α)
    (g : β → β) :
    aupdate (p :: l) k g = (if p.1 = k then (p.1, g p.2) else p) :: aupdate l k g := rfl

theorem alookup_aupdate {α β : Type} [DecidableEq α] (l : List (α × β)) (k k' : α) (g : β → β) :
    alookup (aupdate l k g) k' = if k' = k then (alookup l k).map g else alookup l k' := by
  induction l with
  | nil =>
    simp only [aupdate, List.map_nil]
    by_cases h : k' = k <;> simp [alookup, h]
  | cons p l ih =>
    rw [aupdate_cons, alookup_cons, alookup_cons p l k']
    by_cases h1 : p.1 = k
    · rw [if_pos h1, alookup_cons]
      by_cases h2 : p.1 = k'
      · have hk : k' = k := by rw [← h2, h1]
        simp [h1, h2, hk]
      · have hk : ¬k' = k := fun hc => h2 (by rw [h1, hc])
        have hk2 : ¬k = k' := fun hc => hk hc.symm
        simp [h1, h2, hk, hk2, ih]
    · rw [if_neg h1]
      by_cases h2 : p.1 = k'
      · have hk : ¬k' = k := fun hc => h1 (by rw [h2, hc])
        simp [h2, hk]
      · simp [h2, ih, alookup_cons, h1]

theorem getW_updW (s : WState) (x h : Handle) (g : Widget → Widget) :
    (s.updW x g).getW h = if h = x then (s.getW x).map g else s.getW h := by
  simp [WState.getW, WState.updW, alookup_aupdate]

/-- The Moving-flag clear the press scan applies (widgets.rs 330-331, 338-342). -/
def clearMovingW (w : Widget) : Widget :=
  { w with actions := w.actions.put UiFlags.Moving false }

theorem clearMovingW_idem (w : Widget) : clearMovingW (clearMovingW w) = clearMovingW w := rfl

theorem updW_fields (s : WState) (x : Handle) (g : Widget → Widget) :
    (s.updW x g).zlist = s.zlist ∧ (s.updW x g).focused = s.focused ∧
    (s.updW x g).clicked = s.clicked ∧ (s.updW x g).moving = s.moving ∧
    (s.updW x g).over = s.over ∧ (s.updW x g).trace = s.trace ∧
    (s.updW x g).mouseClicked = s.mouseClicked ∧ (s.updW x g).button = s.button ∧
    (s.updW x g).icbs = s.icbs ∧ (s.updW x g).ucbs = s.ucbs := by
  simp [WState.updW]

theorem hitTestList_updW_clear (st : WState) (x : Handle) :
    ∀ L, hitTestList (st.updW x clearMovingW) L = hitTestList st L := by
  intro L
  induction L with
  | nil => rfl
  | cons h rest ih =>
    simp only [hitTestList, getW_updW]
    by_cases hx : h = x
    · subst hx
      cases hw : st.getW h with
      | none => simp [hw, ih]
      | some w =>
        have h1 : (clearMovingW w).actions.get UiFlags.ClickAble =
            w.actions.get UiFlags.ClickAble := rfl
        have h2 : (clearMovingW w).bounds = w.bounds := rfl
        have h3 : (st.updW h clearMovingW).mouseClicked = st.mouseClicked := rfl
        simp only [hw, if_pos, Option.map_some', eq_self_iff_true, if_true, h1, h2, h3]
        split <;> simp [ih]
    · simp only [if_neg hx]
      cases hw : st.getW h with
      | none => simp [hw, ih]
      | some w =>
        have h3 : (st.updW x clearMovingW).mouseClicked = st.mouseClicked := rfl
        simp only [hw, h3]
        split <;> simp [ih]

theorem clearMovingW_moveAble (w : Widget) :
    (clearMovingW w).actions.get UiFlags.MoveAble = w.actions.get UiFlags.MoveAble := rfl

theorem clearMovingW_bounds (w : Widget) : (clearMovingW w).bounds = w.bounds := rfl

/-- The widgets a no-target press scan clears: MoveAble and containing the
click point (widgets.rs lines 338-342). -/
def scanClearCond (st : WState) (h : Handle) : Prop :=
  ∃ w, st.getW h = some w ∧ w.actions.get UiFlags.MoveAble = true ∧
    w.bounds.containsPt st.mouseClicked = true

theorem scanClearCond_updW_clear (st : WState) (x h : Handle) :
    scanClearCond (st.updW x clearMovingW) h ↔ scanClearCond st h := by
  unfold scanClearCond
  have hmc : (st.updW x clearMovingW).mouseClicked = st.mouseClicked := rfl
  rw [getW_updW, hmc]
  by_cases he : h = x
  · subst he
    cases hw : st.getW h with
    | none => simp [hw]
    | some c => simp [hw, clearMovingW_moveAble, clearMovingW_bounds]
  · simp [he]

theorem mp_scan_miss_props (fuel : Nat) :
    ∀ (L : List Handle) (st : WState), hitTestList st L = none →
      ((mp_scan fuel L st).trace = st.trace ∧
       (mp_scan fuel L st).zlist = st.zlist ∧
       (mp_scan fuel L st).focused = st.focused ∧
       (mp_scan fuel L st).clicked = st.clicked ∧
       (mp_scan fuel L st).moving = st.moving ∧
       (mp_scan fuel L st).over = st.over) ∧
      ∀ h, (¬(h ∈ L ∧ scanClearCond st h) → (mp_scan fuel L st).getW h = st.getW h) ∧
           ((h ∈ L ∧ scanClearCond st h) →
             (mp_scan fuel L st).getW h = (st.getW h).map clearMovingW) := by
  intro L
  induction L with
  | nil =>
    intro st _
    exact ⟨⟨rfl, rfl, rfl, rfl, rfl, rfl⟩,
      fun h => ⟨fun _ => rfl, fun hc => absurd hc.1 (List.not_mem_nil h)⟩⟩
  | cons h0 rest ih =>
    intro st hm
    cases hw : st.getW h0 with
    | none =>
      have hm' : hitTestList st rest = none := by simpa [hitTestList, hw] using hm
      have hscan : mp_scan fuel (h0 :: rest) st = mp_scan fuel rest st := by
        simp [mp_scan, hw]
      rw [hscan]
      obtain ⟨hfields, hstore⟩ := ih st hm'
      refine ⟨hfields, fun h => ⟨?_, ?_⟩⟩
      · intro hnc
        exact (hstore h).1 (fun hc => hnc ⟨List.mem_cons_of_mem _ hc.1, hc.2⟩)
      · rintro ⟨hmem, hcond⟩
        rcases List.mem_cons.mp hmem with he | hr
        · subst he
          rcases hcond with ⟨w, hww, _⟩
          rw [hw] at hww
          exact absurd hww (by simp)
        · exact (hstore h).2 ⟨hr, hcond⟩
    | some c =>
      have hne : ¬(c.actions.get UiFlags.ClickAble && c.bounds.containsPt st.mouseClicked) = true := by
        intro hcc
        simp [hitTestList, hw, hcc] at hm
      have hm' : hitTestList st rest = none := by
        have : hitTestList st (h0 :: rest) = hitTestList st rest := by
          simp only [hitTestList, hw]
          rw [if_neg hne]
        rwa [this] at hm
      by_cases hcl : (c.actions.get UiFlags.MoveAble && c.bounds.containsPt st.mouseClicked) = true
      · have hscan : mp_scan fuel (h0 :: rest) st =
            mp_scan fuel rest (st.updW h0 clearMovingW) := by
          simp only [mp_scan, hw]
          rw [if_neg hne, if_pos hcl]
          rfl
        have hcond0 : scanClearCond st h0 :=
          ⟨c, hw, (Bool.and_eq_true _ _ |>.mp hcl).1, (Bool.and_eq_true _ _ |>.mp hcl).2⟩
        rw [hscan]
        have hm1 : hitTestList (st.updW h0 clearMovingW) rest = none := by
          rw [hitTestList_updW_clear]; exact hm'
        obtain ⟨hfields, hstore⟩ := ih (st.updW h0 clearMovingW) hm1
        obtain ⟨z1, f1, c1, m1, o1, t1, _, _, _, _⟩ := updW_fields st h0 clearMovingW
        constructor
        · exact ⟨hfields.1.trans t1, hfields.2.1.trans z1, hfields.2.2.1.trans f1,
            hfields.2.2.2.1.trans c1, hfields.2.2.2.2.1.trans m1, hfields.2.2.2.2.2.trans o1⟩
        · intro h
          constructor
          · intro hnc
            by_cases he : h = h0
            · subst he
              exact absurd ⟨List.mem_cons_self h rest, hcond0⟩ hnc
            · have hg : (st.updW h0 clearMovingW).getW h = st.getW h := by
                rw [getW_updW, if_neg he]
              have hn1 : ¬(h ∈ rest ∧ scanClearCond (st.updW h0 clearMovingW) h) := by
                rintro ⟨hr, hcnd⟩
                exact hnc ⟨List.mem_cons_of_mem _ hr, (scanClearCond_updW_clear st h0 h).mp hcnd⟩
              rw [(hstore h).1 hn1, hg]
          · rintro ⟨hmem, hcond⟩
            by_cases he : h = h0
            · subst he
              by_cases hrm : h ∈ rest
              · have hcnd1 : scanClearCond (st.updW h clearMovingW) h :=
                  (scanClearCond_updW_clear st h h).mpr hcond
                rw [(hstore h).2 ⟨hrm, hcnd1⟩, getW_updW, if_pos rfl, hw]
                simp [clearMovingW_idem]
              · have hn1 : ¬(h ∈ rest ∧ scanClearCond (st.updW h clearMovingW) h) :=
                  fun hc => hrm hc.1
                rw [(hstore h).1 hn1, getW_updW, if_pos rfl]
            · have hg : (st.updW h0 clearMovingW).getW h = st.getW h := by
                rw [getW_updW, if_neg he]
              have hmem' : h ∈ rest := by
                rcases List.mem_cons.mp hmem with he2 | hr
                · exact absurd he2 he
                · exact hr
              have hcnd1 : scanClearCond (st.updW h0 clearMovingW) h :=
                (scanClearCond_updW_clear st h0 h).mpr hcond
              rw [(hstore h).2 ⟨hmem', hcnd1⟩, hg]
      · have hscan : mp_scan fuel (h0 :: rest) st = mp_scan fuel rest st := by
          simp only [mp_scan, hw]
          rw [if_neg hne, if_neg hcl]
        rw [hscan]
        obtain ⟨hfields, hstore⟩ := ih st hm'
        refine ⟨hfields, fun h => ⟨?_, ?_⟩⟩
        · intro hnc
          exact (hstore h).1 (fun hc => hnc ⟨List.mem_cons_of_mem _ hc.1, hc.2⟩)
        · rintro ⟨hmem, hcond⟩
          rcases List.mem_cons.mp hmem with he | hr
          · subst he
            rcases hcond with ⟨w, hww, hmv, hbd⟩
            rw [hw] at hww
            have : w = c := by
              injection hww with hq
              exact hq.symm
            subst this
            exact absurd (by simp [hmv, hbd]) hcl
          · exact (hstore h).2 ⟨hr, hcond⟩

/-- C9 (amended): a press whose hit test finds no ClickAble widget under the
point dispatches no callback and leaves the z-order, focused, clicked and
window-moving state unchanged; the only store change is that every MoveAble
widget in the z-order whose bounds contain the point has its Moving flag
cleared (widgets.rs lines 338-342) — all other widgets are untouched. -/
theorem c9_no_hit_press (s : WState) (fuel : Nat) (hmiss : hitTest s = none) :
    (mouse_press s fuel).trace = s.trace ∧
    (mouse_press s fuel).zlist = s.zlist ∧
    (mouse_press s fuel).focused = s.focused ∧
    (mouse_press s fuel).clicked = s.clicked ∧
    (mouse_press s fuel).moving = s.moving ∧
    ∀ h, (¬(h ∈ s.zlist ∧ scanClearCond s h) → (mouse_press s fuel).getW h = s.getW h) ∧
         ((h ∈ s.zlist ∧ scanClearCond s h) →
           (mouse_press s fuel).getW h = (s.getW h).map clearMovingW) := by
  obtain ⟨hfields, hstore⟩ := mp_scan_miss_props fuel s.zlist.reverse s hmiss
  refine ⟨hfields.1, hfields.2.1, hfields.2.2.1, hfields.2.2.2.1, hfields.2.2.2.2.1,
    fun h => ⟨?_, ?_⟩⟩
  · intro hnc
    exact (hstore h).1 (fun hc => hnc ⟨(List.mem_reverse).mp hc.1, hc.2⟩)
  · rintro ⟨hmem, hcond⟩
    exact (hstore h).2 ⟨(List.mem_reverse).mpr hmem, hcond⟩

theorem c9_witness :
    hitTest cs9 = none ∧ (mouse_press cs9 5).focused = cs9.focused :=
  ⟨by decide, (c9_no_hit_press cs9 5 (by decide)).2.2.1⟩

theorem ipf_walk_state (s : WState) (w : Widget) :
    ∀ (fuel : Nat) (po : Option Handle), (ipf_walk s w po fuel).2 = s := by
  intro fuel
  induction fuel with
  | zero => intro po; cases po <;> rfl
  | succ f ih =>
    intro po
    cases po with
    | none => rfl
    | some ph =>
      simp only [ipf_walk]
      cases hw : s.getW ph with
      | none => rfl
      | some p =>
        simp only []
        by_cases hcf : p.actions.get UiFlags.CanFocus = true
        · simp [hcf]
        · rw [if_neg hcf]
          split
          · rfl
          · exact ih p.parent

theorem ipf_walk_iff (s : WState) (w : Widget) :
    ∀ (fuel : Nat) (po : Option Handle),
      ((ipf_walk s w po fuel).1 = true ↔
        ∃ a ∈ chainL s po fuel, ∃ pa, s.getW a = some pa ∧
          (pa.actions.get UiFlags.CanFocus = true ∨
            (w.parent = some a ∧ pa.actions.get UiFlags.AlwaysUseable = true ∧
             pa.actions.get UiFlags.ClickAble = true ∧
             w.actions.get UiFlags.CanClickBehind = true))) := by
  intro fuel
  induction fuel with
  | zero => intro po; cases po <;> simp [ipf_walk, chainL]
  | succ f ih =>
    intro po
    cases po with
    | none => simp [ipf_walk, chainL]
    | some ph =>
      simp only [ipf_walk, chainL]
      cases hw : s.getW ph with
      | none => simp
      | some p =>
        simp only []
        by_cases hcf : p.actions.get UiFlags.CanFocus = true
        · simp only [hcf, if_true, if_pos]
          simp only [List.mem_cons]
          constructor
          · intro _
            exact ⟨ph, Or.inl rfl, p, hw, Or.inl hcf⟩
          · intro _
            trivial
        · by_cases hD : (p.actions.get UiFlags.AlwaysUseable && p.actions.get UiFlags.ClickAble &&
              decide (w.parent = some ph) && w.actions.get UiFlags.CanClickBehind) = true
          · rw [if_neg hcf, if_pos hD]
            simp only [List.mem_cons]
            constructor
            · intro _
              have h1 := (Bool.and_eq_true _ _).mp hD
              have h2 := (Bool.and_eq_true _ _).mp h1.1
              have h3 := (Bool.and_eq_true _ _).mp h2.1
              exact ⟨ph, Or.inl rfl, p, hw,
                Or.inr ⟨of_decide_eq_true h2.2, h3.1, h3.2, h1.2⟩⟩
            · intro _
              trivial
          · rw [if_neg hcf, if_neg hD, ih p.parent]
            constructor
            · rintro ⟨a, ha, pa, hpa, hor⟩
              exact ⟨a, List.mem_cons_of_mem _ ha, pa, hpa, hor⟩
            · rintro ⟨a, ha, pa, hpa, hor⟩
              rcases List.mem_cons.mp ha with he | hr
              · subst he
                rw [hw] at hpa
                have hpeq : p = pa := by injection hpa
                subst hpeq
                rcases hor with hc | ⟨hpar, hau, hcl, hccb⟩
                · exact absurd hc hcf
                · exact absurd (by simp [hau, hcl, hpar, hccb]) hD
              · exact ⟨a, hr, pa, hpa, hor⟩

theorem is_parent_focused_state (s : WState) (h : Handle) (fuel : Nat) :
    (is_parent_focused s h fuel).2 = s := by
  unfold is_parent_focused
  cases hw : s.getW h with
  | none => rfl
  | some w =>
    simp only []
    by_cases hau : w.actions.get UiFlags.AlwaysUseable = true
    · simp [hau]
    · rw [if_neg hau]
      exact ipf_walk_state s w fuel w.parent

/-- C7 (amended): for a press target that cannot itself focus, the
permission walk mutates nothing, and it grants exactly when the target
itself has AlwaysUseable, or some ancestor on the parent chain has CanFocus,
or the DIRECT parent has AlwaysUseable and ClickAble while the target has
CanClickBehind; when it grants, set_clicked runs on the target itself (the
FocusClick redirection branch of the source is unreachable), otherwise the
press is a no-op for this target. -/
theorem c7_press_permission (s : WState) (t : Handle) (wt : Widget) (fuel : Nat)
    (hwt : s.getW t = some wt) (hcf : wt.actions.get UiFlags.CanFocus = false) :
    (is_parent_focused s t fuel).2 = s ∧
    ((is_parent_focused s t fuel).1 = true ↔
      (wt.actions.get UiFlags.AlwaysUseable = true ∨
        ∃ a ∈ chainL s wt.parent fuel, ∃ pa, s.getW a = some pa ∧
          (pa.actions.get UiFlags.CanFocus = true ∨
            (wt.parent = some a ∧ pa.actions.get UiFlags.AlwaysUseable = true ∧
             pa.actions.get UiFlags.ClickAble = true ∧
             wt.actions.get UiFlags.CanClickBehind = true)))) ∧
    mouse_press_event s t fuel =
      (if (is_parent_focused s t fuel).1 = true then widget_set_clicked s t else s) := by
  refine ⟨is_parent_focused_state s t fuel, ?_, ?_⟩
  · unfold is_parent_focused
    simp only [hwt]
    by_cases hau : wt.actions.get UiFlags.AlwaysUseable = true
    · simp [hau]
    · rw [if_neg hau, ipf_walk_iff s wt fuel wt.parent]
      simp [hau]
  · have hstate := is_parent_focused_state s t fuel
    have hcf' : ¬wt.actions.get UiFlags.CanFocus = true := by simp [hcf]
    by_cases hgr : (is_parent_focused s t fuel).1 = true
    · rw [if_pos hgr]
      unfold mouse_press_event
      simp only [hwt]
      rw [if_neg hcf']
      rw [show (is_parent_focused s t fuel) = (true, s) from by
        rw [Prod.ext_iff]; exact ⟨hgr, hstate⟩]
      simp
    · rw [if_neg hgr]
      unfold mouse_press_event
      simp only [hwt]
      rw [if_neg hcf']
      rw [show (is_parent_focused s t fuel) = (false, s) from by
        rw [Prod.ext_iff]
        exact ⟨by simpa using hgr, hstate⟩]
      simp

theorem c7_press_permission_witness :
    (is_parent_focused cs7 2 10).2 = cs7 :=
  (c7_press_permission cs7 2
    { id := 2, ty := 2, parent := some 1, children := [],
      actions := { clickAble := true }, bounds := IRect.mk 0 0 10 10 } 10
    (by decide) (by decide)).1

theorem rankDecChild_get {s : WState} {rank : Handle → Nat} (hrc : RankDecChild s rank)
    {h : Handle} {w : Widget} (hw : s.getW h = some w) {c : Handle} (hc : c ∈ w.children) :
    rank c < rank h :=
  hrc (h, w) (alookup_mem hw) c hc

theorem rankDecParent_get {s : WState} {rank : Handle → Nat} (hrp : RankDecParent s rank)
    {h : Handle} {w : Widget} (hw : s.getW h = some w) {ph : Handle} (hp : w.parent = some ph) :
    rank h < rank ph :=
  hrp (h, w) (alookup_mem hw) ph hp

theorem rankBound_get {s : WState} {rank : Handle → Nat} {B : Nat} (hb : RankBound s rank B)
    {h : Handle} {w : Widget} (hw : s.getW h = some w) : rank h < B :=
  hb (h, w) (alookup_mem hw)

theorem flatMap_congr_mem {α β : Type} {l : List α} {f g : α → List β}
    (h : ∀ a ∈ l, f a = g a) : l.flatMap f = l.flatMap g := by
  induction l with
  | nil => rfl
  | cons x xs ih =>
    simp only [List.flatMap_cons]
    rw [h x (List.mem_cons_self x xs), ih (fun a ha => h a (List.mem_cons_of_mem _ ha))]

theorem wpu_stable (s : WState) (rank : Handle → Nat) (hrc : RankDecChild s rank) :
    ∀ (f1 f2 : Nat) (h : Handle), rank h < f1 → rank h < f2 →
      widget_position_update s f1 h = widget_position_update s f2 h := by
  intro f1
  induction f1 with
  | zero => intro f2 h h1 _; exact absurd h1 (Nat.not_lt_zero _)
  | succ a ih =>
    intro f2 h h1 h2
    cases f2 with
    | zero => exact absurd h2 (Nat.not_lt_zero _)
    | succ b =>
      simp only [widget_position_update]
      cases hw : s.getW h with
      | none => rfl
      | some w =>
        simp only []
        congr 1
        apply flatMap_congr_mem
        intro c hc
        cases hwc : s.getW c with
        | none => rfl
        | some cw =>
          simp only []
          by_cases hne : (!cw.children.isEmpty) = true
          · rw [if_pos hne, if_pos hne]
            have hlt : rank c < rank h := rankDecChild_get hrc hw hc
            exact ih b c (by omega) (by omega)
          · rw [if_neg hne, if_neg hne]

theorem walk_stable (s : WState) (w : Widget) (rank : Handle → Nat) (B : Nat)
    (hrp : RankDecParent s rank) (hb : RankBound s rank B) :
    ∀ (f1 f2 : Nat) (po : Option Handle),
      (∀ ph, po = some ph → B ≤ f1 + rank ph) →
      (∀ ph, po = some ph → B ≤ f2 + rank ph) →
      ipf_walk s w po f1 = ipf_walk s w po f2 := by
  intro f1
  induction f1 with
  | zero =>
    intro f2 po hp1 hp2
    cases po with
    | none => cases f2 <;> rfl
    | some ph =>
      cases hw : s.getW ph with
      | none =>
        cases f2 with
        | zero => rfl
        | succ b => simp [ipf_walk, hw]
      | some p =>
        have hr := rankBound_get hb hw
        have := hp1 ph rfl
        omega
  | succ a ih =>
    intro f2 po hp1 hp2
    cases po with
    | none => cases f2 <;> rfl
    | some ph =>
      cases f2 with
      | zero =>
        cases hw : s.getW ph with
        | none => simp [ipf_walk, hw]
        | some p =>
          have hr := rankBound_get hb hw
          have := hp2 ph rfl
          omega
      | succ b =>
        simp only [ipf_walk]
        cases hw : s.getW ph with
        | none => rfl
        | some p =>
          simp only []
          by_cases hcf : p.actions.get UiFlags.CanFocus = true
          · simp [hcf]
          · rw [if_neg hcf, if_neg hcf]
            by_cases hD : (p.actions.get UiFlags.AlwaysUseable && p.actions.get UiFlags.ClickAble &&
                decide (w.parent = some ph) && w.actions.get UiFlags.CanClickBehind) = true
            · rw [if_pos hD, if_pos hD]
            · rw [if_neg hD, if_neg hD]
              apply ih b p.parent
              · intro pp hpp
                have hlt := rankDecParent_get hrp hw hpp
                have := hp1 ph rfl
                omega
              · intro pp hpp
                have hlt := rankDecParent_get hrp hw hpp
                have := hp2 ph rfl
                omega

/-- C10: on a store whose child lists and parent pointers are acyclic
(witnessed by a rank function bounded by B), both the ancestor-chain walk of
is_parent_focused and the recursion of widget_position_update are
independent of the fuel once the fuel reaches B: the fuelled model has
stabilised, i.e. both recursions complete in finitely many steps. -/
theorem c10_walk_and_propagation_terminate (s : WState) (rank : Handle → Nat) (B : Nat)
    (hrc : RankDecChild s rank) (hrp : RankDecParent s rank) (hb : RankBound s rank B)
    (h : Handle) (f1 f2 : Nat) (hf1 : B ≤ f1) (hf2 : B ≤ f2) :
    is_parent_focused s h f1 = is_parent_focused s h f2 ∧
    widget_position_update s f1 h = widget_position_update s f2 h := by
  constructor
  · unfold is_parent_focused
    cases hw : s.getW h with
    | none => rfl
    | some w =>
      simp only []
      by_cases hau : w.actions.get UiFlags.AlwaysUseable = true
      · simp [hau]
      · rw [if_neg hau, if_neg hau]
        exact walk_stable s w rank B hrp hb f1 f2 w.parent
          (fun ph _ => le_trans hf1 (Nat.le_add_right f1 (rank ph)))
          (fun ph _ => le_trans hf2 (Nat.le_add_right f2 (rank ph)))
  · cases hw : s.getW h with
    | none =>
      have hz : ∀ f, widget_position_update s f h = [] := by
        intro f
        cases f with
        | zero => rfl
        | succ g => simp [widget_position_update, hw]
      rw [hz f1, hz f2]
    | some w =>
      have hr := rankBound_get hb hw
      exact wpu_stable s rank hrc f1 f2 h (lt_of_lt_of_le hr hf1) (lt_of_lt_of_le hr hf2)

theorem c10_witness :
    is_parent_focused cs7 2 4 = is_parent_focused cs7 2 9 :=
  (c10_walk_and_propagation_terminate cs7 (fun h => 3 - h) 4 (by decide) (by decide)
    (by decide) 2 4 9 (by decide) (by decide)).1

theorem rank_childrenOf {s : WState} {rank : Handle → Nat} (hrc : RankDecChild s rank)
    {x c : Handle} (hc : c ∈ childrenOf s x) : rank c < rank x := by
  unfold childrenOf at hc
  cases hw : s.getW x with
  | none => rw [hw] at hc; exact absurd hc (List.not_mem_nil c)
  | some w => rw [hw] at hc; exact rankDecChild_get hrc hw hc

theorem uniqueParent_get {s : WState} (hup : UniqueParent s) {x y c : Handle}
    (hx : c ∈ childrenOf s x) (hy : c ∈ childrenOf s y) : x = y := by
  unfold childrenOf at hx hy
  cases hwx : s.getW x with
  | none => rw [hwx] at hx; exact absurd hx (List.not_mem_nil c)
  | some wx =>
    cases hwy : s.getW y with
    | none => rw [hwy] at hy; exact absurd hy (List.not_mem_nil c)
    | some wy =>
      rw [hwx] at hx
      rw [hwy] at hy
      have hmx : (x, wx) ∈ s.widgets := alookup_mem hwx
      have hmy : (y, wy) ∈ s.widgets := alookup_mem hwy
      by_cases he : (x, wx) = (y, wy)
      · exact congrArg Prod.fst he
      · have hsym : Symmetric (fun p q : Handle × Widget =>
            ∀ c ∈ p.2.children, c ∉ q.2.children) :=
          fun p q hpq c hcq hcp => hpq c hcp hcq
        exact absurd hy (hup.forall hsym hmx hmy he c hx)

theorem reaches_tail {s : WState} {a d : Handle} (h : Reaches s a d) :
    a = d ∨ ∃ p, Reaches s a p ∧ d ∈ childrenOf s p := by
  induction h with
  | refl h => exact Or.inl rfl
  | step hc _ ih =>
    rename_i x c d' _
    rcases ih with rfl | ⟨p, hrp, hdp⟩
    · exact Or.inr ⟨x, Reaches.refl x, hc⟩
    · exact Or.inr ⟨p, Reaches.step hc hrp, hdp⟩

theorem reaches_rank_le {s : WState} {rank : Handle → Nat} (hrc : RankDecChild s rank)
    {a d : Handle} (h : Reaches s a d) : rank d ≤ rank a := by
  induction h with
  | refl h => exact le_refl _
  | step hc _ ih => exact le_trans ih (le_of_lt (rank_childrenOf hrc hc))

theorem reaches_total {s : WState}
    (hu : ∀ {x y c : Handle}, c ∈ childrenOf s x → c ∈ childrenOf s y → x = y)
    {a b d : Handle} (had : Reaches s a d) (hbd : Reaches s b d) :
    Reaches s a b ∨ Reaches s b a := by
  induction had generalizing b with
  | refl h => exact Or.inr hbd
  | step hc _ ih =>
    rename_i x c d' hcd
    rcases ih hbd with hcb | hbc
    · exact Or.inl (Reaches.step hc hcb)
    · rcases reaches_tail hbc with rfl | ⟨p, hbp, hcp⟩
      · exact Or.inl (Reaches.step hc (Reaches.refl _))
      · have : p = x := hu hcp hc
        subst this
        exact Or.inr hbp

theorem reaches_of_mem_subtreeL {s : WState} :
    ∀ (f : Nat) (h d : Handle), d ∈ subtreeL s f h → Reaches s h d := by
  intro f
  induction f with
  | zero => intro h d hd; exact absurd hd (List.not_mem_nil d)
  | succ g ih =>
    intro h d hd
    rcases List.mem_cons.mp hd with rfl | hd'
    · exact Reaches.refl d
    · rcases List.mem_flatMap.mp hd' with ⟨c, hc, hdc⟩
      exact Reaches.step hc (ih c d hdc)

theorem mem_subtreeL_of_reaches {s : WState} {rank : Handle → Nat}
    (hrc : RankDecChild s rank) {h d : Handle} (hr : Reaches s h d) :
    ∀ (f : Nat), rank h < f → d ∈ subtreeL s f h := by
  induction hr with
  | refl x =>
    intro f hf
    cases f with
    | zero => exact absurd hf (Nat.not_lt_zero _)
    | succ g => exact List.mem_cons_self x _
  | step hc _ ih =>
    rename_i x c d' _
    intro f hf
    cases f with
    | zero => exact absurd hf (Nat.not_lt_zero _)
    | succ g =>
      have hcr : rank c < rank x := rank_childrenOf hrc hc
      refine List.mem_cons_of_mem x (List.mem_flatMap.mpr ⟨c, hc, ih g (by omega)⟩)

theorem subtreeL_nodup {s : WState} {rank : Handle → Nat} (hrc : RankDecChild s rank)
    (hu : ∀ {x y c : Handle}, c ∈ childrenOf s x → c ∈ childrenOf s y → x = y)
    (hnd : ∀ x : Handle, (childrenOf s x).Nodup) :
    ∀ (f : Nat) (h : Handle), (subtreeL s f h).Nodup := by
  intro f
  induction f with
  | zero => intro h; exact List.nodup_nil
  | succ g ih =>
    intro h
    rw [subtreeL, List.nodup_cons]
    constructor
    · intro hmem
      rcases List.mem_flatMap.mp hmem with ⟨c, hc, hmc⟩
      have h1 : Reaches s c h := reaches_of_mem_subtreeL g c h hmc
      have h2 : rank h ≤ rank c := reaches_rank_le hrc h1
      have h3 : rank c < rank h := rank_childrenOf hrc hc
      omega
    · rw [List.nodup_flatMap]
      refine ⟨fun c _ => ih c, ?_⟩
      refine (hnd h).pairwise_of_forall_ne ?_
      intro c1 hc1 c2 hc2 hne
      intro d hd1 hd2
      have hr1 : Reaches s c1 d := reaches_of_mem_subtreeL g c1 d hd1
      have hr2 : Reaches s c2 d := reaches_of_mem_subtreeL g c2 d hd2
      rcases reaches_total hu hr1 hr2 with h12 | h21
      · rcases reaches_tail h12 with rfl | ⟨p, hp, hcp⟩
        · exact hne rfl
        · have hph : p = h := hu hcp hc2
          rw [hph] at hp
          have h2 : rank h ≤ rank c1 := reaches_rank_le hrc hp
          have h3 : rank c1 < rank h := rank_childrenOf hrc hc1
          omega
      · rcases reaches_tail h21 with rfl | ⟨p, hp, hcp⟩
        · exact hne rfl
        · have hph : p = h := hu hcp hc1
          rw [hph] at hp
          have h2 : rank h ≤ rank c2 := reaches_rank_le hrc hp
          have h3 : rank c2 < rank h := rank_childrenOf hrc hc2
          omega

theorem pcTargets_eq_subtreeL {s : WState} {rank : Handle → Nat} (hrc : RankDecChild s rank)
    (hlv : ChildLive s) :
    ∀ (f : Nat) (h : Handle) (w : Widget), s.getW h = some w → rank h < f →
      pcTargets s f h = subtreeL s f h := by
  intro f
  induction f with
  | zero => intro h w hw hf; exact absurd hf (Nat.not_lt_zero _)
  | succ g ih =>
    intro h w hw hf
    simp only [pcTargets, subtreeL]
    have hch : childrenOf s h = w.children := by unfold childrenOf; rw [hw]
    simp only [hw, hch]
    congr 1
    apply flatMap_congr_mem
    intro c hc
    have hlive : (s.getW c).isSome = true := hlv (h, w) (alookup_mem hw) c hc
    cases hwc : s.getW c with
    | none => rw [hwc] at hlive; exact absurd hlive (by simp)
    | some cw =>
      simp only [hwc]
      have hrc1 : rank c < rank h := rankDecChild_get hrc hw hc
      by_cases hemp : cw.children.isEmpty = true
      · rw [if_neg (by simp [hemp])]
        cases hg : g with
        | zero => omega
        | succ g2 =>
          rw [subtreeL]
          have hce : childrenOf s c = [] := by
            unfold childrenOf
            rw [hwc]
            exact List.isEmpty_iff.mp hemp
          rw [hce]
          simp
      · rw [if_pos (by simp [hemp])]
        exact ih c cw hwc (by omega)

theorem wpu_eq_pcTargets {s : WState} (hreg : PosChangeRegistered s) :
    ∀ (f : Nat) (h : Handle),
      widget_position_update s f h = (pcTargets s f h).map TEvent.iPositionChange := by
  intro f
  induction f with
  | zero => intro h; rfl
  | succ g ih =>
    intro h
    simp only [widget_position_update, pcTargets]
    cases hw : s.getW h with
    | none => rfl
    | some w =>
      simp only []
      have hhead : s.lookICB (w.ty, CallBack.PositionChange) = some InternalCB.PositionChange :=
        hreg (h, w) (alookup_mem hw)
      rw [hhead, List.map_cons, List.map_flatMap]
      rw [show ([TEvent.iPositionChange h] : List TEvent) ++
          w.children.flatMap (fun c =>
            match s.getW c with
            | none => []
            | some cw =>
              if !cw.children.isEmpty then widget_position_update s g c
              else
                match s.lookICB (cw.ty, CallBack.PositionChange) with
                | some InternalCB.PositionChange => [TEvent.iPositionChange c]
                | _ => []) =
          TEvent.iPositionChange h ::
          w.children.flatMap (fun c =>
            match s.getW c with
            | none => []
            | some cw =>
              if !cw.children.isEmpty then widget_position_update s g c
              else
                match s.lookICB (cw.ty, CallBack.PositionChange) with
                | some InternalCB.PositionChange => [TEvent.iPositionChange c]
                | _ => []) from rfl]
      congr 1
      apply flatMap_congr_mem
      intro c _
      cases hwc : s.getW c with
      | none => rfl
      | some cw =>
        simp only [hwc]
        by_cases hemp : (!cw.children.isEmpty) = true
        · rw [if_pos hemp, if_pos hemp]
          exact ih c
        · rw [if_neg hemp, if_neg hemp]
          have hcreg : s.lookICB (cw.ty, CallBack.PositionChange) =
              some InternalCB.PositionChange := hreg (c, cw) (alookup_mem hwc)
          rw [hcreg]
          rfl

/-- C6: on an acyclic forest-shaped store (ranked child edges, no shared
children, duplicate-free child lists, live children) with a PositionChange
internal callback registered for every widget kind, one position update on a
widget fires exactly one PositionChange callback on that widget and on each
of its reachable descendants, and none on any other widget. -/
theorem c6_position_propagation_exactly_once (s : WState) (rank : Handle → Nat)
    (hrc : RankDecChild s rank) (hup : UniqueParent s) (hnd : ChildNodup s)
    (hlv : ChildLive s) (hreg : PosChangeRegistered s)
    (root : Handle) (w : Widget) (hroot : s.getW root = some w)
    (f : Nat) (hf : rank root < f) (d : Handle) :
    (Reaches s root d →
      (widget_position_update s f root).count (TEvent.iPositionChange d) = 1) ∧
    (¬Reaches s root d →
      (widget_position_update s f root).count (TEvent.iPositionChange d) = 0) := by
  have hinj : Function.Injective TEvent.iPositionChange := fun a b hab => by injection hab
  have hu : ∀ {x y c : Handle}, c ∈ childrenOf s x → c ∈ childrenOf s y → x = y :=
    fun hx hy => uniqueParent_get hup hx hy
  have hndp : ∀ x : Handle, (childrenOf s x).Nodup := by
    intro x
    unfold childrenOf
    cases hw : s.getW x with
    | none => exact List.nodup_nil
    | some wx => exact hnd (x, wx) (alookup_mem hw)
  rw [wpu_eq_pcTargets hreg f root, pcTargets_eq_subtreeL hrc hlv f root w hroot hf,
    List.count_map_of_injective _ _ hinj d]
  constructor
  · intro hr
    exact List.count_eq_one_of_mem (subtreeL_nodup hrc hu hndp f root)
      (mem_subtreeL_of_reaches hrc hr f hf)
  · intro hnr
    refine List.count_eq_zero_of_not_mem ?_
    intro hmem
    exact hnr (reaches_of_mem_subtreeL f root d hmem)

/-- The four-widget tree of the C6 test property: root 0 with children 1 and 2,
widget 1 with child 3; PositionChange internal callbacks registered. -/
def w6state : WState :=
  { widgets :=
      [(0, { id := 0, ty := 0, parent := none, children := [1, 2],
             actions := {}, bounds := IRect.mk 0 0 100 100 }),
       (1, { id := 1, ty := 0, parent := some 0, children := [3],
             actions := {}, bounds := IRect.mk 0 0 10 10 }),
       (2, { id := 2, ty := 0, parent := some 0, children := [],
             actions := {}, bounds := IRect.mk 20 0 10 10 }),
       (3, { id := 3, ty := 0, parent := some 1, children := [],
             actions := {}, bounds := IRect.mk 0 0 5 5 })],
    zlist := [0, 1, 2, 3], focused := none, over := none, clicked := none,
    mouseClicked := (0, 0), mousePos := (0, 0), newMousePos := (0, 0),
    moving := false, button := 0, modifier := 0,
    icbs := [((0, CallBack.PositionChange), InternalCB.PositionChange)],
    ucbs := [], trace := [] }

theorem c6_witness :
    (widget_position_update w6state 4 0).count (TEvent.iPositionChange 3) = 1 :=
  (c6_position_propagation_exactly_once w6state (fun h => 3 - h) (by decide) (by decide)
    (by decide) (by decide) (by decide) 0
    { id := 0, ty := 0, parent := none, children := [1, 2],
      actions := {}, bounds := IRect.mk 0 0 100 100 }
    (by decide) 4 (by decide) 3).1
    (Reaches.step (s := w6state) (h := 0) (c := 1) (d := 3) (by decide)
      (Reaches.step (by decide) (Reaches.refl 3)))

/-- The widget observation preserved by every state write the press pipeline
performs before dispatching callbacks: everything except the Moving and
IsFocused flags and the order of the child list. -/
def normW (w : Widget) : Widget :=
  { w with children := [],
           actions := { w.actions with moving := false, isFocused := false } }

/-- States that agree on everything the press dispatch reads: click point,
button, the two callback tables, and every widget up to `normW`. -/
def NormEq (s u : WState) : Prop :=
  u.mouseClicked = s.mouseClicked ∧ u.button = s.button ∧ u.icbs = s.icbs ∧
  u.ucbs = s.ucbs ∧ ∀ h, (u.getW h).map normW = (s.getW h).map normW

theorem normEq_refl (s : WState) : NormEq s s := ⟨rfl, rfl, rfl, rfl, fun _ => rfl⟩

theorem normEq_updW {s u : WState} (hne : NormEq s u) {x : Handle} {g : Widget → Widget}
    (hg : ∀ w, normW (g w) = normW w) : NormEq s (u.updW x g) := by
  obtain ⟨h1, h2, h3, h4, h5⟩ := hne
  refine ⟨h1, h2, h3, h4, fun h => ?_⟩
  rw [getW_updW]
  by_cases he : h = x
  · subst he
    rw [if_pos rfl, ← h5 h]
    cases hw : u.getW h with
    | none => simp [hw]
    | some w => simp [hw, hg w]
  · rw [if_neg he]
    exact h5 h

theorem normEq_getW {s u : WState} (hne : NormEq s u) {h : Handle} {w : Widget}
    (hw : s.getW h = some w) : ∃ w', u.getW h = some w' ∧ normW w' = normW w := by
  have h5 := hne.2.2.2.2 h
  rw [hw] at h5
  cases hu : u.getW h with
  | none => rw [hu] at h5; exact absurd h5 (by simp)
  | some w' => rw [hu] at h5; exact ⟨w', rfl, by simpa using h5⟩

theorem normEq_getW_none {s u : WState} (hne : NormEq s u) {h : Handle}
    (hw : s.getW h = none) : u.getW h = none := by
  have h5 := hne.2.2.2.2 h
  rw [hw] at h5
  cases hu : u.getW h with
  | none => rfl
  | some w' => rw [hu] at h5; exact absurd h5 (by simp)

theorem normW_projs {w w' : Widget} (h : normW w' = normW w) :
    w'.id = w.id ∧ w'.ty = w.ty ∧ w'.parent = w.parent ∧ w'.bounds = w.bounds ∧
    w'.actions.get UiFlags.CanFocus = w.actions.get UiFlags.CanFocus ∧
    w'.actions.get UiFlags.CanClickBehind = w.actions.get UiFlags.CanClickBehind ∧
    w'.actions.get UiFlags.ClickAble = w.actions.get UiFlags.ClickAble ∧
    w'.actions.get UiFlags.MoveAble = w.actions.get UiFlags.MoveAble ∧
    w'.actions.get UiFlags.CanMoveWindow = w.actions.get UiFlags.CanMoveWindow ∧
    w'.actions.get UiFlags.AlwaysUseable = w.actions.get UiFlags.AlwaysUseable ∧
    w'.actions.get UiFlags.FocusClick = w.actions.get UiFlags.FocusClick := by
  refine ⟨?_, ?_, ?_, ?_, ?_, ?_, ?_, ?_, ?_, ?_, ?_⟩
  · show (normW w').id = (normW w).id
    exact congrArg Widget.id h
  · show (normW w').ty = (normW w).ty
    exact congrArg Widget.ty h
  · show (normW w').parent = (normW w).parent
    exact congrArg Widget.parent h
  · show (normW w').bounds = (normW w).bounds
    exact congrArg Widget.bounds h
  · show (normW w').actions.canFocus = (normW w).actions.canFocus
    exact congrArg (fun v => v.actions.canFocus) h
  · show (normW w').actions.canClickBehind = (normW w).actions.canClickBehind
    exact congrArg (fun v => v.actions.canClickBehind) h
  · show (normW w').actions.clickAble = (normW w).actions.clickAble
    exact congrArg (fun v => v.actions.clickAble) h
  · show (normW w').actions.moveAble = (normW w).actions.moveAble
    exact congrArg (fun v => v.actions.moveAble) h
  · show (normW w').actions.canMoveWindow = (normW w).actions.canMoveWindow
    exact congrArg (fun v => v.actions.canMoveWindow) h
  · show (normW w').actions.alwaysUseable = (normW w).actions.alwaysUseable
    exact congrArg (fun v => v.actions.alwaysUseable) h
  · show (normW w').actions.focusClick = (normW w).actions.focusClick
    exact congrArg (fun v => v.actions.focusClick) h

theorem lookICB_congr {s u : WState} (hne : NormEq s u) (k : Nat × CallBack) :
    u.lookICB k = s.lookICB k := by
  unfold WState.lookICB
  rw [hne.2.2.1]

theorem lookUCB_congr {s u : WState} (hne : NormEq s u) (k : Nat × CallBack) :
    u.lookUCB k = s.lookUCB k := by
  unfold WState.lookUCB
  rw [hne.2.2.2.1]

/-- A MousePress dispatch event about handle h. -/
def mpAbout (h : Handle) (pressed : Bool) (button : Nat) (e : TEvent) : Prop :=
  e = TEvent.iMousePress h pressed button ∨ e = TEvent.uMousePress h pressed button

theorem normEq_emit {s u : WState} (hne : NormEq s u) (e : TEvent) :
    NormEq s (u.emit e) :=
  ⟨hne.1, hne.2.1, hne.2.2.1, hne.2.2.2.1, fun h => hne.2.2.2.2 h⟩

theorem wmpc_props (s u : WState) (h : Handle) (pressed : Bool) (hne : NormEq s u) :
    NormEq s (widget_mouse_press_callbacks u h pressed) ∧
    (widget_mouse_press_callbacks u h pressed).moving = u.moving ∧
    ∃ Δ, (widget_mouse_press_callbacks u h pressed).trace = u.trace ++ Δ ∧
      (∀ e ∈ Δ, mpAbout h pressed s.button e) ∧
      (∀ w, s.getW h = some w →
        s.lookICB (w.ty, CallBack.MousePress) = some InternalCB.MousePress →
        TEvent.iMousePress h pressed s.button ∈ Δ) ∧
      (∀ w, s.getW h = some w →
        s.lookUCB (w.ty, CallBack.MousePress) = some UserCB.MousePress →
        TEvent.uMousePress h pressed s.button ∈ Δ) := by
  unfold widget_mouse_press_callbacks
  cases hu : u.getW h with
  | none =>
    refine ⟨hne, rfl, [], by simp, by simp, ?_, ?_⟩
    · intro w hw _
      obtain ⟨w', hu', _⟩ := normEq_getW hne hw
      rw [hu] at hu'
      exact absurd hu' (by simp)
    · intro w hw _
      obtain ⟨w', hu', _⟩ := normEq_getW hne hw
      rw [hu] at hu'
      exact absurd hu' (by simp)
  | some w' =>
    have hty : ∀ w, s.getW h = some w → w'.ty = w.ty := by
      intro w hw
      obtain ⟨w'', hu'', hnorm⟩ := normEq_getW hne hw
      rw [hu] at hu''
      have hq : w'' = w' := by
        injection hu'' with hq2
        exact hq2.symm
      subst hq
      exact (normW_projs hnorm).2.1
    have hbu : u.button = s.button := hne.2.1
    simp only []
    rw [lookICB_congr hne]
    cases hI : s.lookICB (w'.ty, CallBack.MousePress) with
    | none =>
      rw [show (u.lookUCB (w'.ty, CallBack.MousePress)) = s.lookUCB (w'.ty, CallBack.MousePress)
        from lookUCB_congr hne _]
      cases hU : s.lookUCB (w'.ty, CallBack.MousePress) with
      | none =>
        refine ⟨hne, rfl, [], by simp, by simp, ?_, ?_⟩
        · intro w hw hreg
          rw [← hty w hw, hI] at hreg
          exact absurd hreg (by simp)
        · intro w hw hreg
          rw [← hty w hw, hU] at hreg
          exact absurd hreg (by simp)
      | some uv =>
        cases uv
        refine ⟨normEq_emit hne _, rfl, [TEvent.uMousePress h pressed u.button],
          rfl, ?_, ?_, ?_⟩
        · intro e he
          rcases List.mem_singleton.mp he with rfl
          exact Or.inr (by rw [hbu])
        · intro w hw hreg
          rw [← hty w hw, hI] at hreg
          exact absurd hreg (by simp)
        · intro w hw _
          rw [← hbu]
          exact List.mem_singleton.mpr rfl
    | some iv =>
      cases iv with
      | MousePress =>
        rw [show ((u.emit (TEvent.iMousePress h pressed u.button)).lookUCB
            (w'.ty, CallBack.MousePress)) = s.lookUCB (w'.ty, CallBack.MousePress)
          from lookUCB_congr (normEq_emit hne _) _]
        cases hU : s.lookUCB (w'.ty, CallBack.MousePress) with
        | none =>
          refine ⟨normEq_emit hne _, rfl, [TEvent.iMousePress h pressed u.button],
            rfl, ?_, ?_, ?_⟩
          · intro e he
            rcases List.mem_singleton.mp he with rfl
            exact Or.inl (by rw [hbu])
          · intro w hw _
            rw [← hbu]
            exact List.mem_singleton.mpr rfl
          · intro w hw hreg
            rw [← hty w hw, hU] at hreg
            exact absurd hreg (by simp)
        | some uv =>
          cases uv
          refine ⟨normEq_emit (normEq_emit hne _) _, rfl,
            [TEvent.iMousePress h pressed u.button,
             TEvent.uMousePress h pressed u.button], ?_, ?_, ?_, ?_⟩
          · show (u.trace ++ [TEvent.iMousePress h pressed u.button]) ++
              [TEvent.uMousePress h pressed u.button] = _
            rw [List.append_assoc]
            rfl
          · intro e he
            rcases List.mem_cons.mp he with rfl | he2
            · exact Or.inl (by rw [hbu])
            · rcases List.mem_singleton.mp he2 with rfl
              exact Or.inr (by rw [hbu])
          · intro w hw _
            rw [← hbu]
            exact List.mem_cons_self _ _
          · intro w hw _
            rw [← hbu]
            exact List.mem_cons_of_mem _ (List.mem_singleton.mpr rfl)
      | FocusChange =>
        rw [show (u.lookUCB (w'.ty, CallBack.MousePress)) =
            s.lookUCB (w'.ty, CallBack.MousePress) from lookUCB_congr hne _]
        cases hU : s.lookUCB (w'.ty, CallBack.MousePress) with
        | none =>
          refine ⟨hne, rfl, [], by simp, by simp, ?_, ?_⟩
          · intro w hw hreg
            rw [← hty w hw, hI] at hreg
            exact absurd hreg (by simp)
          · intro w hw hreg
            rw [← hty w hw, hU] at hreg
            exact absurd hreg (by simp)
        | some uv =>
          cases uv
          refine ⟨normEq_emit hne _, rfl, [TEvent.uMousePress h pressed u.button],
            rfl, ?_, ?_, ?_⟩
          · intro e he
            rcases List.mem_singleton.mp he with rfl
            exact Or.inr (by rw [hbu])
          · intro w hw hreg
            rw [← hty w hw, hI] at hreg
            exact absurd hreg (by simp)
          · intro w hw _
            rw [← hbu]
            exact List.mem_singleton.mpr rfl
      | PositionChange =>
        rw [show (u.lookUCB (w'.ty, CallBack.MousePress)) =
            s.lookUCB (w'.ty, CallBack.MousePress) from lookUCB_congr hne _]
        cases hU : s.lookUCB (w'.ty, CallBack.MousePress) with
        | none =>
          refine ⟨hne, rfl, [], by simp, by simp, ?_, ?_⟩
          · intro w hw hreg
            rw [← hty w hw, hI] at hreg
            exact absurd hreg (by simp)
          · intro w hw hreg
            rw [← hty w hw, hU] at hreg
            exact absurd hreg (by simp)
        | some uv =>
          cases uv
          refine ⟨normEq_emit hne _, rfl, [TEvent.uMousePress h pressed u.button],
            rfl, ?_, ?_, ?_⟩
          · intro e he
            rcases List.mem_singleton.mp he with rfl
            exact Or.inr (by rw [hbu])
          · intro w hw hreg
            rw [← hty w hw, hI] at hreg
            exact absurd hreg (by simp)
          · intro w hw _
            rw [← hbu]
            exact List.mem_singleton.mpr rfl

theorem normEq_setFocused {s u : WState} (hne : NormEq s u) (x : Option Handle) :
    NormEq s { u with focused := x } :=
  ⟨hne.1, hne.2.1, hne.2.2.1, hne.2.2.2.1, fun h => hne.2.2.2.2 h⟩

theorem normEq_setMoving {s u : WState} (hne : NormEq s u) (b : Bool) :
    NormEq s { u with moving := b } :=
  ⟨hne.1, hne.2.1, hne.2.2.1, hne.2.2.2.1, fun h => hne.2.2.2.2 h⟩

theorem normEq_setClicked {s u : WState} (hne : NormEq s u) (x : Option Handle) :
    NormEq s { u with clicked := x } :=
  ⟨hne.1, hne.2.1, hne.2.2.1, hne.2.2.2.1, fun h => hne.2.2.2.2 h⟩

theorem normEq_setZlist {s u : WState} (hne : NormEq s u) (z : List Handle) :
    NormEq s { u with zlist := z } :=
  ⟨hne.1, hne.2.1, hne.2.2.1, hne.2.2.2.1, fun h => hne.2.2.2.2 h⟩

theorem wfc_props (s u : WState) (h : Handle) (b : Bool) (hwf : WfICBs s) (hne : NormEq s u) :
    NormEq s (widget_focused_callback u h b) ∧
    (widget_focused_callback u h b).trace = u.trace ∧
    (widget_focused_callback u h b).moving = u.moving := by
  unfold widget_focused_callback
  cases hu : u.getW h with
  | none => exact ⟨hne, rfl, rfl⟩
  | some w' =>
    simp only []
    have hne1 : NormEq s
        (u.updW h (fun w0 => { w0 with actions := w0.actions.put UiFlags.IsFocused true })) :=
      normEq_updW hne (fun _ => rfl)
    have hne2 : NormEq s
        { u.updW h (fun w0 => { w0 with actions := w0.actions.put UiFlags.IsFocused true }) with
          focused := some w'.id } := normEq_setFocused hne1 _
    rw [lookICB_congr hne2]
    cases hv : s.lookICB (w'.ty, CallBack.MousePress) with
    | none => exact ⟨hne2, rfl, rfl⟩
    | some v =>
      cases v with
      | FocusChange =>
        have hmem := alookup_mem hv
        have := hwf _ hmem
        exact absurd this (by simp [InternalCB.kind])
      | MousePress => exact ⟨hne2, rfl, rfl⟩
      | PositionChange => exact ⟨hne2, rfl, rfl⟩

theorem wmpc_wrap (s u0 : WState) (baseTrace : List TEvent) (t : Handle) (wt : Widget)
    (hwt : s.getW t = some wt) (hne0 : NormEq s u0) (htr0 : u0.trace = baseTrace) :
    NormEq s (widget_mouse_press_callbacks u0 t true) ∧
    ∃ Δ, (widget_mouse_press_callbacks u0 t true).trace = baseTrace ++ Δ ∧
      (∀ e ∈ Δ, mpAbout t true s.button e) ∧
      (s.lookICB (wt.ty, CallBack.MousePress) = some InternalCB.MousePress →
        TEvent.iMousePress t true s.button ∈ Δ) ∧
      (s.lookUCB (wt.ty, CallBack.MousePress) = some UserCB.MousePress →
        TEvent.uMousePress t true s.button ∈ Δ) := by
  obtain ⟨hne1, _, Δ, htr, hab, hip, hup⟩ := wmpc_props s u0 t true hne0
  exact ⟨hne1, Δ, by rw [htr, htr0], hab, fun hr => hip wt hwt hr, fun hr => hup wt hwt hr⟩

theorem widget_set_clicked_props_nccb (s u : WState) (t : Handle) (wt : Widget)
    (hne : NormEq s u) (hwt : s.getW t = some wt)
    (hccb : wt.actions.get UiFlags.CanClickBehind = false) :
    NormEq s (widget_set_clicked u t) ∧
    ∃ Δ, (widget_set_clicked u t).trace = u.trace ++ Δ ∧
      (∀ e ∈ Δ, mpAbout t true s.button e) ∧
      (s.lookICB (wt.ty, CallBack.MousePress) = some InternalCB.MousePress →
        TEvent.iMousePress t true s.button ∈ Δ) ∧
      (s.lookUCB (wt.ty, CallBack.MousePress) = some UserCB.MousePress →
        TEvent.uMousePress t true s.button ∈ Δ) := by
  obtain ⟨w', hu, hnorm⟩ := normEq_getW hne hwt
  have hproj := normW_projs hnorm
  have hccb' : w'.actions.get UiFlags.CanClickBehind = false := by
    rw [hproj.2.2.2.2.2.1, hccb]
  unfold widget_set_clicked
  rw [hu]
  simp only []
  rw [if_neg (by simp [hccb'])]
  by_cases h1 : (w'.actions.get UiFlags.CanMoveWindow && w'.bounds.containsPt u.mouseClicked) = true
  · rw [if_pos h1]
    by_cases h2 : (w'.actions.get UiFlags.MoveAble && w'.bounds.containsPt u.mouseClicked) = true
    · rw [if_pos h2]
      exact wmpc_wrap s _ u.trace t wt hwt
        (normEq_updW (normEq_setMoving hne true) (fun _ => rfl)) rfl
    · rw [if_neg h2]
      exact wmpc_wrap s _ u.trace t wt hwt (normEq_setMoving hne true) rfl
  · rw [if_neg h1]
    by_cases h2 : (w'.actions.get UiFlags.MoveAble && w'.bounds.containsPt u.mouseClicked) = true
    · rw [if_pos h2]
      exact wmpc_wrap s _ u.trace t wt hwt (normEq_updW hne (fun _ => rfl)) rfl
    · rw [if_neg h2]
      exact wmpc_wrap s _ u.trace t wt hwt hne rfl

theorem wmpc_wrap2 (s u0 : WState) (baseTrace : List TEvent) (ph : Handle) (p : Widget)
    (hp : s.getW ph = some p) (hne0 : NormEq s u0) (htr0 : u0.trace = baseTrace) :
    NormEq s (widget_mouse_press_callbacks u0 ph true) ∧
    (widget_mouse_press_callbacks u0 ph true).moving = u0.moving ∧
    ∃ Δ, (widget_mouse_press_callbacks u0 ph true).trace = baseTrace ++ Δ ∧
      (∀ e ∈ Δ, mpAbout ph true s.button e) ∧
      (s.lookICB (p.ty, CallBack.MousePress) = some InternalCB.MousePress →
        TEvent.iMousePress ph true s.button ∈ Δ) ∧
      (s.lookUCB (p.ty, CallBack.MousePress) = some UserCB.MousePress →
        TEvent.uMousePress ph true s.button ∈ Δ) := by
  obtain ⟨hne1, hmov, Δ, htr, hab, hip, hup⟩ := wmpc_props s u0 ph true hne0
  exact ⟨hne1, hmov, Δ, by rw [htr, htr0], hab, fun hr => hip p hp hr, fun hr => hup p hp hr⟩

theorem widget_set_clicked_props_ccb (s u : WState) (t : Handle) (wt : Widget)
    (ph : Handle) (p : Widget) (hne : NormEq s u) (hwt : s.getW t = some wt)
    (hccb : wt.actions.get UiFlags.CanClickBehind = true)
    (hpar : wt.parent = some ph) (hp : s.getW ph = some p) :
    NormEq s (widget_set_clicked u t) ∧
    ((p.actions.get UiFlags.CanMoveWindow = true ∧
      p.bounds.containsPt s.mouseClicked = true) → (widget_set_clicked u t).moving = true) ∧
    ∃ Δ, (widget_set_clicked u t).trace = u.trace ++ Δ ∧
      (∀ e ∈ Δ, mpAbout ph true s.button e) ∧
      (s.lookICB (p.ty, CallBack.MousePress) = some InternalCB.MousePress →
        TEvent.iMousePress ph true s.button ∈ Δ) ∧
      (s.lookUCB (p.ty, CallBack.MousePress) = some UserCB.MousePress →
        TEvent.uMousePress ph true s.button ∈ Δ) := by
  obtain ⟨w', hu, hnorm⟩ := normEq_getW hne hwt
  have hproj := normW_projs hnorm
  have hccb' : w'.actions.get UiFlags.CanClickBehind = true := by
    rw [hproj.2.2.2.2.2.1, hccb]
  have hpar' : w'.parent = some ph := by rw [hproj.2.2.1, hpar]
  obtain ⟨p', hup, hnormp⟩ := normEq_getW hne hp
  have hprojp := normW_projs hnormp
  have hmc : u.mouseClicked = s.mouseClicked := hne.1
  unfold widget_set_clicked
  rw [hu]
  simp only []
  rw [if_pos (by simp [hccb']), hpar']
  simp only []
  by_cases h1 : (w'.actions.get UiFlags.CanMoveWindow && w'.bounds.containsPt u.mouseClicked) = true
  · rw [if_pos h1]
    have hup1 : WState.getW { u with moving := true } ph = some p' := hup
    rw [hup1]
    simp only []
    by_cases h2 : (p'.actions.get UiFlags.CanMoveWindow &&
        p'.bounds.containsPt ({ u with moving := true } : WState).mouseClicked) = true
    · rw [if_pos h2]
      obtain ⟨hne2, hmov2, Δ, htr2, hab, hip, hup2⟩ := wmpc_wrap2 s _ u.trace ph p hp
        (normEq_setClicked (normEq_setMoving (normEq_setMoving hne true) true) _) rfl
      exact ⟨hne2, fun _ => by rw [hmov2], Δ, htr2, hab, hip, hup2⟩
    · rw [if_neg h2]
      obtain ⟨hne2, hmov2, Δ, htr2, hab, hip, hup2⟩ := wmpc_wrap2 s _ u.trace ph p hp
        (normEq_setClicked (normEq_setMoving hne true) _) rfl
      exact ⟨hne2, fun _ => by rw [hmov2], Δ, htr2, hab, hip, hup2⟩
  · rw [if_neg h1]
    rw [hup]
    simp only []
    by_cases h2 : (p'.actions.get UiFlags.CanMoveWindow &&
        p'.bounds.containsPt u.mouseClicked) = true
    · rw [if_pos h2]
      obtain ⟨hne2, hmov2, Δ, htr2, hab, hip, hup2⟩ := wmpc_wrap2 s _ u.trace ph p hp
        (normEq_setClicked (normEq_setMoving hne true) _) rfl
      exact ⟨hne2, fun _ => by rw [hmov2], Δ, htr2, hab, hip, hup2⟩
    · rw [if_neg h2]
      obtain ⟨hne2, hmov2, Δ, htr2, hab, hip, hup2⟩ :=
        wmpc_wrap2 s { u with clicked := some ph } u.trace ph p hp
          (normEq_setClicked hne (some ph)) rfl
      refine ⟨hne2, ?_, Δ, htr2, hab, hip, hup2⟩
      rintro ⟨hcmw, hcont⟩
      exfalso
      apply h2
      rw [hprojp.2.2.2.2.2.2.2.2.1, hcmw, hprojp.2.2.2.1, hmc, hcont]
      rfl

theorem raise_to_top_z_props (s u : WState) (x : Handle) (hne : NormEq s u) :
    NormEq s (raise_to_top_z u x) ∧ (raise_to_top_z u x).trace = u.trace := by
  unfold raise_to_top_z
  split
  · exact ⟨normEq_setZlist hne _, rfl⟩
  · exact ⟨hne, rfl⟩

theorem raise_in_parent_props (s u : WState) (w : Widget) (x : Handle) (hne : NormEq s u) :
    NormEq s (raise_in_parent u w x) ∧ (raise_in_parent u w x).trace = u.trace := by
  unfold raise_in_parent
  cases w.parent with
  | none => exact ⟨hne, rfl⟩
  | some ph =>
    simp only []
    cases u.getW ph with
    | none => exact ⟨hne, rfl⟩
    | some p =>
      simp only []
      split
      · exact ⟨normEq_updW hne (fun _ => rfl), by
          show (u.updW ph _).trace = u.trace
          rfl⟩
      · exact ⟨hne, rfl⟩

theorem widget_set_focus_decomp (s u : WState) (t : Handle) (wt : Widget)
    (hwf : WfICBs s) (hne : NormEq s u) (hwt : s.getW t = some wt) :
    ∃ u', widget_set_focus u t = widget_set_clicked u' t ∧ NormEq s u' ∧
      u'.trace = u.trace := by
  obtain ⟨w', hu, _⟩ := normEq_getW hne hwt
  unfold widget_set_focus
  rw [hu]
  simp only []
  obtain ⟨hne1, htr1⟩ := raise_to_top_z_props s u w'.id hne
  obtain ⟨hne2, htr2⟩ := raise_in_parent_props s (raise_to_top_z u w'.id) w' w'.id hne1
  set u2 := raise_in_parent (raise_to_top_z u w'.id) w' w'.id with hu2
  cases hfoc : u2.focused with
  | none =>
    simp only []
    obtain ⟨hne4, htr4, _⟩ := wfc_props s u2 t true hwf hne2
    exact ⟨widget_focused_callback u2 t true, rfl, hne4, by rw [htr4, htr2, htr1]⟩
  | some fh =>
    simp only []
    obtain ⟨hne3, htr3, _⟩ := wfc_props s u2 fh false hwf hne2
    obtain ⟨hne4, htr4, _⟩ := wfc_props s (widget_focused_callback u2 fh false) t true hwf hne3
    exact ⟨widget_focused_callback (widget_focused_callback u2 fh false) t true, rfl, hne4,
      by rw [htr4, htr3, htr2, htr1]⟩

theorem mpe_props_nccb (s u : WState) (t : Handle) (wt : Widget) (fuel : Nat)
    (hwf : WfICBs s) (hne : NormEq s u) (hwt : s.getW t = some wt)
    (hccb : wt.actions.get UiFlags.CanClickBehind = false) :
    NormEq s (mouse_press_event u t fuel) ∧
    ∃ Δ, (mouse_press_event u t fuel).trace = u.trace ++ Δ ∧
      (∀ e ∈ Δ, mpAbout t true s.button e) ∧
      (wt.actions.get UiFlags.CanFocus = true →
        s.lookUCB (wt.ty, CallBack.MousePress) = some UserCB.MousePress →
        TEvent.uMousePress t true s.button ∈ Δ) := by
  obtain ⟨w', hu, hnorm⟩ := normEq_getW hne hwt
  have hproj := normW_projs hnorm
  unfold mouse_press_event
  rw [hu]
  simp only []
  by_cases hcf : w'.actions.get UiFlags.CanFocus = true
  · rw [if_pos hcf]
    by_cases hfoc : u.focused ≠ some w'.id
    · rw [if_pos hfoc]
      obtain ⟨u', heq, hne', htr'⟩ := widget_set_focus_decomp s u t wt hwf hne hwt
      rw [heq]
      obtain ⟨hne2, Δ, htr2, hab, _, hup⟩ :=
        widget_set_clicked_props_nccb s u' t wt hne' hwt hccb
      exact ⟨hne2, Δ, by rw [htr2, htr'], hab, fun _ hr => hup hr⟩
    · rw [if_neg hfoc]
      obtain ⟨hne2, Δ, htr2, hab, _, hup⟩ :=
        widget_set_clicked_props_nccb s u t wt hne hwt hccb
      exact ⟨hne2, Δ, htr2, hab, fun _ hr => hup hr⟩
  · rw [if_neg hcf]
    have hst := is_parent_focused_state u t fuel
    by_cases hgr : (is_parent_focused u t fuel).1 = true
    · rw [if_pos hgr, hst]
      obtain ⟨hne2, Δ, htr2, hab, _, hup⟩ :=
        widget_set_clicked_props_nccb s u t wt hne hwt hccb
      refine ⟨hne2, Δ, htr2, hab, fun hcf2 _ => ?_⟩
      rw [hproj.2.2.2.2.1] at hcf
      exact absurd hcf2 hcf
    · rw [if_neg hgr, hst]
      exact ⟨hne, [], by simp, by simp, fun hcf2 _ => by
        rw [hproj.2.2.2.2.1] at hcf
        exact absurd hcf2 hcf⟩

theorem mp_scan_props (s : WState) (fuel : Nat) (t : Handle) (wt : Widget)
    (hwf : WfICBs s) (hwt : s.getW t = some wt)
    (hccb : wt.actions.get UiFlags.CanClickBehind = false) :
    ∀ (L : List Handle) (u : WState), NormEq s u → u.trace = s.trace →
      hitTestList s L = some t →
      ∃ Δ, (mp_scan fuel L u).trace = s.trace ++ Δ ∧
        (∀ e ∈ Δ, mpAbout t true s.button e) ∧
        (wt.actions.get UiFlags.CanFocus = true →
          s.lookUCB (wt.ty, CallBack.MousePress) = some UserCB.MousePress →
          TEvent.uMousePress t true s.button ∈ Δ) := by
  intro L
  induction L with
  | nil =>
    intro u _ _ hht
    exact absurd hht (by simp [hitTestList])
  | cons h0 rest ih =>
    intro u hne htr hht
    cases hw : s.getW h0 with
    | none =>
      have hu0 : u.getW h0 = none := normEq_getW_none hne hw
      have hht' : hitTestList s rest = some t := by simpa [hitTestList, hw] using hht
      rw [show mp_scan fuel (h0 :: rest) u = mp_scan fuel rest u from by
        simp [mp_scan, hu0]]
      exact ih u hne htr hht'
    | some c =>
      obtain ⟨c', hu0, hnormc⟩ := normEq_getW hne hw
      have hprojc := normW_projs hnormc
      have hmc : u.mouseClicked = s.mouseClicked := hne.1
      by_cases hcc : (c.actions.get UiFlags.ClickAble && c.bounds.containsPt s.mouseClicked) = true
      · have ht0 : h0 = t := by
          have hh : hitTestList s (h0 :: rest) = some h0 := by
            simp [hitTestList, hw, hcc]
          rw [hh] at hht
          injection hht
        subst ht0
        have hcc' : (c'.actions.get UiFlags.ClickAble &&
            c'.bounds.containsPt u.mouseClicked) = true := by
          rw [hprojc.2.2.2.2.2.2.1, hprojc.2.2.2.1, hmc]
          exact hcc
        by_cases hmv : c'.actions.get UiFlags.MoveAble = true
        · have hstep : mp_scan fuel (h0 :: rest) u =
              mouse_press_event
                (u.updW h0 (fun w0 =>
                  { w0 with actions := w0.actions.put UiFlags.Moving false })) h0 fuel := by
            simp only [mp_scan]
            rw [hu0]
            simp only []
            rw [if_pos hcc', if_pos hmv]
          rw [hstep]
          obtain ⟨_, Δ, htr2, hab, hpos⟩ := mpe_props_nccb s
            (u.updW h0 (fun w0 => { w0 with actions := w0.actions.put UiFlags.Moving false }))
            h0 wt fuel hwf (normEq_updW hne (fun _ => rfl)) hwt hccb
          refine ⟨Δ, ?_, hab, hpos⟩
          rw [htr2]
          rw [show (u.updW h0 (fun w0 =>
            { w0 with actions := w0.actions.put UiFlags.Moving false })).trace = u.trace from rfl,
            htr]
        · have hstep : mp_scan fuel (h0 :: rest) u = mouse_press_event u h0 fuel := by
            simp only [mp_scan]
            rw [hu0]
            simp only []
            rw [if_pos hcc', if_neg hmv]
          rw [hstep]
          obtain ⟨_, Δ, htr2, hab, hpos⟩ :=
            mpe_props_nccb s u h0 wt fuel hwf hne hwt hccb
          exact ⟨Δ, by rw [htr2, htr], hab, hpos⟩
      · have hcc' : ¬(c'.actions.get UiFlags.ClickAble &&
            c'.bounds.containsPt u.mouseClicked) = true := by
          rw [hprojc.2.2.2.2.2.2.1, hprojc.2.2.2.1, hmc]
          exact hcc
        have hht' : hitTestList s rest = some t := by
          have hh : hitTestList s (h0 :: rest) = hitTestList s rest := by
            simp only [hitTestList, hw]
            rw [if_neg hcc]
          rwa [hh] at hht
        by_cases hmv : (c'.actions.get UiFlags.MoveAble &&
            c'.bounds.containsPt u.mouseClicked) = true
        · have hstep : mp_scan fuel (h0 :: rest) u =
              mp_scan fuel rest (u.updW h0 (fun w0 =>
                { w0 with actions := w0.actions.put UiFlags.Moving false })) := by
            simp only [mp_scan]
            rw [hu0]
            simp only []
            rw [if_neg hcc', if_pos hmv]
          rw [hstep]
          exact ih _ (normEq_updW hne (fun _ => rfl))
            (by rw [show (u.updW h0 (fun w0 =>
              { w0 with actions := w0.actions.put UiFlags.Moving false })).trace = u.trace
              from rfl, htr]) hht'
        · have hstep : mp_scan fuel (h0 :: rest) u = mp_scan fuel rest u := by
            simp only [mp_scan]
            rw [hu0]
            simp only []
            rw [if_neg hcc', if_neg hmv]
          rw [hstep]
          exact ih u hne htr hht'

theorem mr_scan_props (s : WState) (t : Handle) (wt : Widget) (hwt : s.getW t = some wt) :
    ∀ (L : List Handle) (u : WState), NormEq s u → u.trace = s.trace →
      hitTestList s L = some t →
      ∃ Δ, (mr_scan L u).trace = s.trace ++ Δ ∧
        (∀ e ∈ Δ, mpAbout t false s.button e) ∧
        (s.lookUCB (wt.ty, CallBack.MousePress) = some UserCB.MousePress →
          TEvent.uMousePress t false s.button ∈ Δ) := by
  intro L
  induction L with
  | nil =>
    intro u _ _ hht
    exact absurd hht (by simp [hitTestList])
  | cons h0 rest ih =>
    intro u hne htr hht
    cases hw : s.getW h0 with
    | none =>
      have hu0 : u.getW h0 = none := normEq_getW_none hne hw
      have hht' : hitTestList s rest = some t := by simpa [hitTestList, hw] using hht
      rw [show mr_scan (h0 :: rest) u = mr_scan rest u from by simp [mr_scan, hu0]]
      exact ih u hne htr hht'
    | some c =>
      obtain ⟨c', hu0, hnormc⟩ := normEq_getW hne hw
      have hprojc := normW_projs hnormc
      have hmc : u.mouseClicked = s.mouseClicked := hne.1
      by_cases hcc : (c.actions.get UiFlags.ClickAble && c.bounds.containsPt s.mouseClicked) = true
      · have ht0 : h0 = t := by
          have hh : hitTestList s (h0 :: rest) = some h0 := by
            simp [hitTestList, hw, hcc]
          rw [hh] at hht
          injection hht
        subst ht0
        have hcc' : (c'.actions.get UiFlags.ClickAble &&
            c'.bounds.containsPt u.mouseClicked) = true := by
          rw [hprojc.2.2.2.2.2.2.1, hprojc.2.2.2.1, hmc]
          exact hcc
        by_cases hcw : c'.actions.get UiFlags.CanMoveWindow = true
        · have hstep : mr_scan (h0 :: rest) u =
              widget_mouse_press_callbacks { u with moving := false } h0 false := by
            simp only [mr_scan]
            rw [hu0]
            simp only []
            rw [if_pos hcc', if_pos hcw]
          rw [hstep]
          obtain ⟨_, _, Δ, htr2, hab, _, hup⟩ :=
            wmpc_props s { u with moving := false } h0 false (normEq_setMoving hne false)
          exact ⟨Δ, by
            rw [htr2]
            rw [show ({ u with moving := false } : WState).trace = u.trace from rfl, htr],
            hab, fun hr => hup wt hwt hr⟩
        · have hstep : mr_scan (h0 :: rest) u =
              widget_mouse_press_callbacks u h0 false := by
            simp only [mr_scan]
            rw [hu0]
            simp only []
            rw [if_pos hcc', if_neg hcw]
          rw [hstep]
          obtain ⟨_, _, Δ, htr2, hab, _, hup⟩ := wmpc_props s u h0 false hne
          exact ⟨Δ, by rw [htr2, htr], hab, fun hr => hup wt hwt hr⟩
      · have hcc' : ¬(c'.actions.get UiFlags.ClickAble &&
            c'.bounds.containsPt u.mouseClicked) = true := by
          rw [hprojc.2.2.2.2.2.2.1, hprojc.2.2.2.1, hmc]
          exact hcc
        have hht' : hitTestList s rest = some t := by
          have hh : hitTestList s (h0 :: rest) = hitTestList s rest := by
            simp only [hitTestList, hw]
            rw [if_neg hcc]
          rwa [hh] at hht
        have hstep : mr_scan (h0 :: rest) u = mr_scan rest u := by
          simp only [mr_scan]
          rw [hu0]
          simp only []
          rw [if_neg hcc']
        rw [hstep]
        exact ih u hne htr hht'

/-- C1 (amended): with a well-formed internal-callback table, a press whose
hit-test target (the latest ClickAble widget under the click point in
z-order) does NOT have CanClickBehind dispatches MousePress callbacks
(pressed = true) only to that target — no other widget under the point
receives any callback — and the target's registered user callback does fire
when the target can focus; a release always dispatches (pressed = false)
only to the topmost ClickAble widget under the point, which receives its
registered user callback.  (The CanClickBehind exception is forced by
`c1_counterexample`: there the parent of the target is the recipient.) -/
theorem c1_topmost_dispatch (s : WState) (fuel : Nat) (hwf : WfICBs s) :
    (∀ t wt, hitTest s = some t → s.getW t = some wt →
      wt.actions.get UiFlags.CanClickBehind = false →
      ∃ Δ, (mouse_press s fuel).trace = s.trace ++ Δ ∧
        (∀ e ∈ Δ, mpAbout t true s.button e) ∧
        (wt.actions.get UiFlags.CanFocus = true →
          s.lookUCB (wt.ty, CallBack.MousePress) = some UserCB.MousePress →
          TEvent.uMousePress t true s.button ∈ Δ)) ∧
    (∀ t wt, hitTest s = some t → s.getW t = some wt →
      ∃ Δ, (mouse_release s).trace = s.trace ++ Δ ∧
        (∀ e ∈ Δ, mpAbout t false s.button e) ∧
        (s.lookUCB (wt.ty, CallBack.MousePress) = some UserCB.MousePress →
          TEvent.uMousePress t false s.button ∈ Δ)) := by
  constructor
  · intro t wt hht hwt hccb
    exact mp_scan_props s fuel t wt hwf hwt hccb s.zlist.reverse s (normEq_refl s) rfl hht
  · intro t wt hht hwt
    unfold mouse_release
    cases hfoc : s.focused with
    | none =>
      simp only []
      exact mr_scan_props s t wt hwt s.zlist.reverse s (normEq_refl s) rfl hht
    | some fh =>
      simp only []
      cases hwfh : s.getW fh with
      | none =>
        simp only []
        exact mr_scan_props s t wt hwt s.zlist.reverse s (normEq_refl s) rfl hht
      | some f =>
        simp only []
        by_cases hfm : f.actions.get UiFlags.Moving = true
        · rw [if_pos hfm]
          have hz : (s.updW fh (fun w0 =>
              { w0 with actions := w0.actions.put UiFlags.Moving false })).zlist = s.zlist := rfl
          rw [hz]
          exact mr_scan_props s t wt hwt s.zlist.reverse _
            (normEq_updW (normEq_refl s) (fun _ => rfl)) rfl hht
        · rw [if_neg hfm]
          exact mr_scan_props s t wt hwt s.zlist.reverse s (normEq_refl s) rfl hht

theorem c1_topmost_dispatch_witness :
    ∃ Δ, (mouse_press cs2 5).trace = cs2.trace ++ Δ ∧
      (∀ e ∈ Δ, mpAbout 0 true cs2.button e) ∧
      (({ isFocused := true, canFocus := true, clickAble := true } : UiField).get
          UiFlags.CanFocus = true →
        cs2.lookUCB (0, CallBack.MousePress) = some UserCB.MousePress →
        TEvent.uMousePress 0 true cs2.button ∈ Δ) :=
  (c1_topmost_dispatch cs2 5 (by decide)).1 0
    { id := 0, ty := 0, parent := none, children := [],
      actions := { isFocused := true, canFocus := true, clickAble := true },
      bounds := IRect.mk 0 0 10 10 }
    (by decide) (by decide) (by decide)

/-- C5 (amended): a press whose hit-test target has CanClickBehind and a
parent is delegated entirely to the parent PROVIDED the press reaches
set_clicked (the target can focus, or the permission walk grants): every
dispatched MousePress names the parent (the target itself receives none),
the parent's registered internal and user MousePress(pressed = true)
callbacks fire, and if the parent has CanMoveWindow and the click point lies
in the parent's bounds a whole-window drag begins (moving = true). -/
theorem c5_delegated_click (s : WState) (t : Handle) (wt : Widget) (ph : Handle) (p : Widget)
    (fuel : Nat) (hwf : WfICBs s) (hwt : s.getW t = some wt)
    (hccb : wt.actions.get UiFlags.CanClickBehind = true)
    (hpar : wt.parent = some ph) (hp : s.getW ph = some p)
    (hgrant : wt.actions.get UiFlags.CanFocus = true ∨ (is_parent_focused s t fuel).1 = true) :
    ((p.actions.get UiFlags.CanMoveWindow = true ∧
      p.bounds.containsPt s.mouseClicked = true) → (mouse_press_event s t fuel).moving = true) ∧
    ∃ Δ, (mouse_press_event s t fuel).trace = s.trace ++ Δ ∧
      (∀ e ∈ Δ, mpAbout ph true s.button e) ∧
      (s.lookICB (p.ty, CallBack.MousePress) = some InternalCB.MousePress →
        TEvent.iMousePress ph true s.button ∈ Δ) ∧
      (s.lookUCB (p.ty, CallBack.MousePress) = some UserCB.MousePress →
        TEvent.uMousePress ph true s.button ∈ Δ) := by
  unfold mouse_press_event
  rw [hwt]
  simp only []
  by_cases hcf : wt.actions.get UiFlags.CanFocus = true
  · rw [if_pos hcf]
    by_cases hfoc : s.focused ≠ some wt.id
    · rw [if_pos hfoc]
      obtain ⟨u', heq, hne', htr'⟩ := widget_set_focus_decomp s s t wt hwf (normEq_refl s) hwt
      rw [heq]
      obtain ⟨_, hmov, Δ, htr2, hab, hip, hup⟩ :=
        widget_set_clicked_props_ccb s u' t wt ph p hne' hwt hccb hpar hp
      exact ⟨hmov, Δ, by rw [htr2, htr'], hab, hip, hup⟩
    · rw [if_neg hfoc]
      obtain ⟨_, hmov, Δ, htr2, hab, hip, hup⟩ :=
        widget_set_clicked_props_ccb s s t wt ph p (normEq_refl s) hwt hccb hpar hp
      exact ⟨hmov, Δ, htr2, hab, hip, hup⟩
  · rw [if_neg hcf]
    rcases hgrant with hg | hg
    · exact absurd hg hcf
    · rw [if_pos hg, is_parent_focused_state]
      obtain ⟨_, hmov, Δ, htr2, hab, hip, hup⟩ :=
        widget_set_clicked_props_ccb s s t wt ph p (normEq_refl s) hwt hccb hpar hp
      exact ⟨hmov, Δ, htr2, hab, hip, hup⟩

theorem c5_delegated_click_witness :
    ∃ Δ, (mouse_press_event cs1 1 5).trace = cs1.trace ++ Δ ∧
      (∀ e ∈ Δ, mpAbout 0 true cs1.button e) ∧
      (cs1.lookICB (0, CallBack.MousePress) = some InternalCB.MousePress →
        TEvent.iMousePress 0 true cs1.button ∈ Δ) ∧
      (cs1.lookUCB (0, CallBack.MousePress) = some UserCB.MousePress →
        TEvent.uMousePress 0 true cs1.button ∈ Δ) :=
  (c5_delegated_click cs1 1
    { id := 1, ty := 1, parent := some 0, children := [],
      actions := { clickAble := true, canClickBehind := true, alwaysUseable := true },
      bounds := IRect.mk 10 10 20 20 }
    0
    { id := 0, ty := 0, parent := none, children := [1],
      actions := { clickAble := true }, bounds := IRect.mk 0 0 100 100 }
    5 (by decide) (by decide) (by decide) (by decide) (by decide)
    (Or.inr (by decide))).2

theorem getE_updE (s : UIState) (x h : Handle) (g : UIEntity → UIEntity) :
    (s.updE x g).getE h = if h = x then (s.getE x).map g else s.getE h := by
  simp [UIState.getE, UIState.updE, alookup_aupdate]

theorem getE_mouse_over (u : UIState) (h : Handle) :
    (ui_mouse_over_event u).getE h = u.getE h := rfl

/-- C4 (amended): for a pointer move while the focused widget has its Moving
flag set and no window drag is active, the containing bounds are the
parent's bounds when a parent exists and the viewport rectangle otherwise
(`containerOf`), and the move is all-or-nothing: if any edge of the
prospective bounds would fall ON or outside the containing bounds
(`uiRejects`, non-strict comparisons) the state is unchanged except the
new-pointer field; otherwise the position moves by exactly the applied delta
(x pointer delta, y pointer delta negated — `uiDelta`), position propagation
starts at the widget, hover is recomputed, and the pointer position is
stored. -/
theorem c4_drag_all_or_nothing (s : UIState) (fh : Handle) (f : UIEntity)
    (position screensize : Rat × Rat)
    (hmov : s.moving = false) (hfoc : s.focused = some fh) (hf : s.getE fh = some f)
    (hflag : f.actions.get UiFlags.Moving = true) :
    (uiRejects f (containerOf s f screensize) (uiDelta s position) = true →
      ui_event_mouse_position s position screensize = { s with newMousePos := position }) ∧
    (uiRejects f (containerOf s f screensize) (uiDelta s position) = false →
      ((ui_event_mouse_position s position screensize).getE fh).map UIEntity.pos =
        some (f.pos.1 + (uiDelta s position).1, f.pos.2 + (uiDelta s position).2) ∧
      (ui_event_mouse_position s position screensize).trace =
        s.trace ++ [UITrace.positionUpdate fh, UITrace.hoverRecompute] ∧
      (ui_event_mouse_position s position screensize).mousePos = position) := by
  obtain ⟨sw, sf, sm, smc, smp, snm, str⟩ := s
  simp only [] at hmov hfoc
  subst hmov
  subst hfoc
  simp only [UIState.getE] at hf
  constructor
  · intro hrej
    have hrej' : uiRejects f
        (containerOf (⟨sw, some fh, false, smc, smp, position, str⟩ : UIState) f screensize)
        (uiDelta (⟨sw, some fh, false, smc, smp, position, str⟩ : UIState) position) =
          true := hrej
    unfold ui_event_mouse_position
    simp only [UIState.getE, hf, hflag, Bool.false_eq_true, if_false, if_true,
      reduceCtorEq, ite_false, ite_true]
    rw [if_pos hrej']
  · intro hrej
    have hrej' : uiRejects f
        (containerOf (⟨sw, some fh, false, smc, smp, position, str⟩ : UIState) f screensize)
        (uiDelta (⟨sw, some fh, false, smc, smp, position, str⟩ : UIState) position) =
          false := hrej
    unfold ui_event_mouse_position
    simp only [UIState.getE, hf, hflag, Bool.false_eq_true, if_false, if_true,
      reduceCtorEq, ite_false, ite_true]
    rw [if_neg (by simp [hrej'])]
    refine ⟨?_, ?_, rfl⟩
    · simp only [UIState.getE, ui_mouse_over_event, UIState.updE]
      rw [alookup_aupdate, if_pos rfl, hf]
      rfl
    · simp only [ui_mouse_over_event, UIState.updE]
      simp [List.append_assoc, ui_widget_position_update]

theorem c4_drag_all_or_nothing_witness :
    ((ui_event_mouse_position cs4 (45, 50) (800, 600)).getE 1).map UIEntity.pos =
      some ((10 : Rat) + (uiDelta cs4 (45, 50)).1, (10 : Rat) + (uiDelta cs4 (45, 50)).2) :=
  ((c4_drag_all_or_nothing cs4 1
      { actions := { moving := true }, parent := some 0,
        bounds := QRect.mk 10 10 20 20, pos := (10, 10) }
      (45, 50) (800, 600) rfl rfl rfl rfl).2
    (by
      norm_num [uiRejects, containerOf, uiDelta, cs4, UIState.getE, alookup,
        List.find?, QRect.mk])).1
